import Mathlib

/-!
Shallow embedding of the double-buffered (ping-pong) LZ4 brick compressor of
the `overlapping-communication-compute` notebook, together with the
non-overlapped reference implementation, and proofs about them.

Bytes are modelled as natural numbers, byte buffers as lists.  The numpy
arrays `in_buffers`, `out_buffers`, `compressed_size` and `uncompressed_size`
become explicit state that is threaded through the loops; python slice
assignment (with its negative-index normalisation) is modelled by the
`py...` helpers below.  The hardware compression kernel is not part of the
repository (it is an `xclbin` binary), so it is modelled abstractly from the
spec by a per-block compression function `comp`; the host-side code is
translated statement by statement from the notebook.
-/

/-- Block size used by the compression kernel (1 MB), from the notebook. -/
def BLOCK_SIZE : Nat := 1024 * 1024

/-- Brick size: 8 blocks of `BLOCK_SIZE`, from the notebook. -/
def BRICK_SIZE : Nat := 8 * BLOCK_SIZE

/-- The LZ4 frame magic bytes `b'\x04\x22\x4D\x18'`. -/
def LZ4_MAGIC : List Nat := [0x04, 0x22, 0x4D, 0x18]

/-- The fixed frame header written by the notebook: magic plus `b'\x60\x60\x51'`. -/
def LZ4_HEADER : List Nat := LZ4_MAGIC ++ [0x60, 0x60, 0x51]

/-- `struct.pack` with format `<I`: 4-byte little-endian encoding (mod 2^32). -/
def le32 (n : Nat) : List Nat :=
  [n % 256, n / 256 % 256, n / 65536 % 256, n / 16777216 % 256]

/-- Normalise a python slice index against a sequence of length `n`:
negative indices count from the end, then the result is clamped to `[0, n]`. -/
def pyNorm (n : Nat) (i : Int) : Nat :=
  (max 0 (min (if i < 0 then i + n else i) n)).toNat

/-- Python slice assignment `xs[lo:hi] = v` (broadcasting a scalar) on a
fixed-length sequence. -/
def pySliceSet (xs : List Nat) (lo hi : Int) (v : Nat) : List Nat :=
  List.ofFn fun i : Fin xs.length =>
    if pyNorm xs.length lo ≤ (i : Nat) ∧ (i : Nat) < pyNorm xs.length hi then v
    else xs.get i

/-- Python single-index assignment `xs[i] = v`, with negative-index
normalisation (in-range in every use below). -/
def pyIdxSet (xs : List Nat) (i : Int) (v : Nat) : List Nat :=
  let j := if i < 0 then i + xs.length else i
  if 0 ≤ j then xs.set j.toNat v else xs

/-- Python slice read `xs[lo:hi]`. -/
def pySliceGet {α : Type} (xs : List α) (lo hi : Int) : List α :=
  (xs.take (pyNorm xs.length hi)).drop (pyNorm xs.length lo)

/-- Result of `write_uncompressed`: the two returned values plus the new
contents of the input buffer (flat view) and of the `uncompressed_size`
array. -/
structure WUResult where
  total_size : Nat
  blocks : Int
  buffers : List Nat
  sizes : List Nat
deriving Repr

/-- The notebook's `write_uncompressed(data, buffers, sizes)`.

```python
def write_uncompressed(data, buffers, sizes):
    total_size = min(len(data), BRICK_SIZE)
    buffers.reshape((BRICK_SIZE,))[0:total_size] = data[0:total_size]
    buffers.sync_to_device()
    if total_size == BRICK_SIZE:
        sizes[:] = BLOCK_SIZE
        blocks = 8
    else:
        left = total_size
        blocks = ((total_size - 1) // BLOCK_SIZE) + 1
        sizes[0:blocks-1] = BLOCK_SIZE
        sizes[blocks-1] = total_size % BLOCK_SIZE
        sizes[blocks:8] = 0
    sizes.sync_to_device()
    return total_size, blocks
```

`//` is python floor division, modelled by `Int.fdiv`; the `sync` calls are
no-ops in the model.  `buffers` is the flat (`BRICK_SIZE`-long) view of the
slot's input array. -/
def write_uncompressed (data buffers sizes : List Nat) : WUResult :=
  let total_size := min data.length BRICK_SIZE
  let buffers2 := data.take total_size ++ buffers.drop total_size
  if total_size = BRICK_SIZE then
    ⟨total_size, 8, buffers2, List.replicate sizes.length BLOCK_SIZE⟩
  else
    let blocks : Int := ((total_size : Int) - 1).fdiv (BLOCK_SIZE : Int) + 1
    let s1 := pySliceSet sizes 0 (blocks - 1) BLOCK_SIZE
    let s2 := pyIdxSet s1 (blocks - 1) (total_size % BLOCK_SIZE)
    let s3 := pySliceSet s2 blocks 8 0
    ⟨total_size, blocks, buffers2, s3⟩

/-- Modelled from the spec (the `xilLz4Compress` kernel itself is an `xclbin`
binary, not in the repository): the accelerator compresses each of the 8
blocks of a brick independently.  Block `i`'s input is the first
`uncompressed_size[i]` bytes (at most `BLOCK_SIZE`) of row `i` of the input
array, i.e. of the flat buffer starting at offset `i * BLOCK_SIZE`. -/
def kernelBlockIn (inBuf sizes : List Nat) (i : Nat) : List Nat :=
  (inBuf.drop (i * BLOCK_SIZE)).take (min (sizes.getD i 0) BLOCK_SIZE)

/-- Modelled from the spec: one invocation of the compression kernel.  For
each block `i` it writes the compressed bytes `comp` of block `i`'s input
into row `i` of the output array (each row holds `BLOCK_SIZE` bytes, so the
written prefix is truncated to that) and records the compressed length in
`compressed_size[i]`.  Returns (output rows, compressed sizes). -/
def kernelRun (comp : List Nat → List Nat) (inBuf sizes : List Nat) :
    List (List Nat) × List Nat :=
  let outs := (List.range 8).map fun i => comp (kernelBlockIn inBuf sizes i)
  (outs.map fun o => o.take BLOCK_SIZE, outs.map fun o => o.length)

/-- The notebook's `read_compressed(stream, buffers, sizes, blocks)`.

```python
def read_compressed(stream, buffers, sizes, blocks):
    sizes.sync_from_device()
    for size, buffer in zip(sizes[0:blocks], buffers[0:blocks]):
        subbuf = buffer[0:size]
        subbuf.sync_from_device()
        stream.write(struct.pack('<I', size))
        stream.write(subbuf)
```

`buffers` is the per-block row list of the output array, `sizes` the
`compressed_size` array; the function returns the extended stream. -/
def read_compressed (stream : List Nat) (buffers : List (List Nat))
    (sizes : List Nat) (blocks : Int) : List Nat :=
  stream ++
    (List.zip (pySliceGet sizes 0 blocks) (pySliceGet buffers 0 blocks)).flatMap
      fun p => le32 p.1 ++ p.2.take p.1

/-- The loop of the notebook's `compress_hw`, threading the stream and the
persistent `in_buffers` / `uncompressed_size` state.  (`out_buffers` and
`compressed_size` are completely overwritten by every kernel call and read
back immediately, so they need not be threaded.)  Also counts the number of
kernel invocations.

```python
while offset < len(view):
    brick_size, blocks = write_uncompressed(
        view[offset:], in_buffers, uncompressed_size)
    compress_kernel.call(in_buffers, out_buffers,
                         compressed_size, uncompressed_size,
                         1024, brick_size)
    read_compressed(stream, out_buffers, compressed_size, blocks)
    offset += brick_size
```
-/
def compress_hw_go (comp : List Nat → List Nat)
    (view stream inBuf usizes : List Nat) : List Nat × Nat :=
  if view.length = 0 then (stream, 0)
  else
    let w := write_uncompressed view inBuf usizes
    let k := kernelRun comp w.buffers w.sizes
    let stream2 := read_compressed stream k.1 k.2 w.blocks
    let r := compress_hw_go comp (view.drop w.total_size) stream2 w.buffers w.sizes
    (r.1, r.2 + 1)
termination_by view.length
decreasing_by
  have hts : (write_uncompressed view inBuf usizes).total_size
      = min view.length BRICK_SIZE := by
    simp [write_uncompressed, apply_ite WUResult.total_size]
  have hB : 0 < BRICK_SIZE := by simp [BRICK_SIZE, BLOCK_SIZE]
  simp only [List.length_drop, hts]
  omega

/-- The notebook's non-overlapped reference `compress_hw(raw_data)`, returning
the produced byte stream and the number of kernel invocations.  The
module-level buffers are freshly allocated (zero-filled) arrays. -/
def compress_hw (comp : List Nat → List Nat) (raw_data : List Nat) :
    List Nat × Nat :=
  let r := compress_hw_go comp raw_data LZ4_HEADER
    (List.replicate BRICK_SIZE 0) (List.replicate 8 0)
  (r.1 ++ [0, 0, 0, 0], r.2)

/-- Host / accelerator interaction events, recorded in program order by the
model of `compress_overlapped`:
`pack s` = `write_uncompressed` on slot `s`, `submit s i` = `compress_kernel.start`
number `i` on slot `s`, `wait i` = `wh.wait()` for submission `i`,
`unpack s` = `read_compressed` on slot `s`. -/
inductive Event where
  | pack : Nat → Event
  | submit : Nat → Nat → Event
  | wait : Nat → Event
  | unpack : Nat → Event
deriving DecidableEq, Repr

/-- One buffer slot of the ping-pong scheme: flat input buffer,
`uncompressed_size` array, output rows and `compressed_size` array. -/
structure Slot where
  buf : List Nat
  usz : List Nat
  rows : List (List Nat)
  csz : List Nat

/-- The `while True:` loop of `compress_overlapped`, entered with the brick at
`view[offset:]` already packed into slot `active` (its pack result being
`brick_size`, `blocks`).  `previous_blocks` and the out-state of the other
slot hold the not-yet-unpacked result of the previous submission.  Since the
accelerator is deterministic, the result of an asynchronous `start` is
computed immediately and `wait` only marks the synchronisation point in the
trace.

```python
while True:
    wh = compress_kernel.start(
        in_buffers[active], out_buffers[active],
        compressed_size[active], uncompressed_size[active],
        1024, brick_size)
    active ^= 1
    offset += brick_size
    if previous_blocks != 0:
        read_compressed(stream, out_buffers[active],
                        compressed_size[active], previous_blocks)
    previous_blocks = blocks
    if offset < len(view):
        brick_size, blocks = write_uncompressed(
            view[offset:], in_buffers[active], uncompressed_size[active])
    else:
        break
    wh.wait()
wh.wait()
active ^= 1
read_compressed(stream, out_buffers[active],
                compressed_size[active], previous_blocks)
```

The hypothesis `hbs` (the brick packed into the active slot is nonempty
whenever input remains) holds on every call and makes the loop terminate. -/
def ov_loop (comp : List Nat → List Nat) (view : List Nat)
    (offset active : Nat) (previous_blocks blocks : Int) (brick_size : Nat)
    (s0 s1 : Slot) (stream : List Nat) (trace : List Event) (subId : Nat)
    (hbs : offset < view.length → 1 ≤ brick_size) : List Nat × List Event :=
  let sa := if active = 0 then s0 else s1
  let k := kernelRun comp sa.buf sa.usz
  let sa2 : Slot := ⟨sa.buf, sa.usz, k.1, k.2⟩
  let s0a := if active = 0 then sa2 else s0
  let s1a := if active = 0 then s1 else sa2
  let t1 := trace ++ [Event.submit active subId]
  let sb := if active ^^^ 1 = 0 then s0a else s1a
  let stream2 := if previous_blocks ≠ 0 then
      read_compressed stream sb.rows sb.csz previous_blocks
    else stream
  let t2 := if previous_blocks ≠ 0 then t1 ++ [Event.unpack (active ^^^ 1)] else t1
  if h : offset + brick_size < view.length then
    let w := write_uncompressed (view.drop (offset + brick_size)) sb.buf sb.usz
    let sb2 : Slot := ⟨w.buffers, w.sizes, sb.rows, sb.csz⟩
    let s0b := if active ^^^ 1 = 0 then sb2 else s0a
    let s1b := if active ^^^ 1 = 0 then s1a else sb2
    ov_loop comp view (offset + brick_size) (active ^^^ 1) blocks w.blocks
      w.total_size s0b s1b stream2
      (t2 ++ [Event.pack (active ^^^ 1), Event.wait subId]) (subId + 1)
      (by
        intro _
        have hts : w.total_size
            = min (view.drop (offset + brick_size)).length BRICK_SIZE := by
          simp [w, write_uncompressed, apply_ite WUResult.total_size]
        have hB : 0 < BRICK_SIZE := by simp [BRICK_SIZE, BLOCK_SIZE]
        rw [hts]
        simp only [List.length_drop]
        omega)
  else
    (read_compressed stream2 sa2.rows sa2.csz blocks,
      t2 ++ [Event.wait subId, Event.unpack active])
termination_by view.length - offset
decreasing_by
  have h1 : 1 ≤ brick_size := hbs (by omega)
  omega

/-- Initial contents of one freshly allocated slot: all arrays zero-filled. -/
def slotInit : Slot :=
  ⟨List.replicate BRICK_SIZE 0, List.replicate 8 0,
    List.replicate 8 (List.replicate BLOCK_SIZE 0), List.replicate 8 0⟩

/-- The notebook's pipelined `compress_overlapped(raw_data)`, returning the
produced byte stream and the recorded event trace.

```python
def compress_overlapped(raw_data):
    view = memoryview(raw_data)
    offset = 0
    active = 0
    previous_blocks = 0
    stream = io.BytesIO()
    stream.write(LZ4_HEADER)
    brick_size, blocks = write_uncompressed(
            view[offset:], in_buffers[0], uncompressed_size[0])
    while True:
        ...  # see ov_loop
    stream.write(b'\x00\x00\x00\x00')
    stream.seek(0)
    return stream
```
-/
def compress_overlapped (comp : List Nat → List Nat) (raw_data : List Nat) :
    List Nat × List Event :=
  let w := write_uncompressed raw_data slotInit.buf slotInit.usz
  let s0 : Slot := ⟨w.buffers, w.sizes, slotInit.rows, slotInit.csz⟩
  let r := ov_loop comp raw_data 0 0 0 w.blocks w.total_size s0 slotInit
    LZ4_HEADER [Event.pack 0] 0
    (by
      intro h0
      have hts : w.total_size = min raw_data.length BRICK_SIZE := by
        simp [w, write_uncompressed, apply_ite WUResult.total_size]
      have hB : 0 < BRICK_SIZE := by simp [BRICK_SIZE, BLOCK_SIZE]
      rw [hts]
      omega)
  (r.1 ++ [0, 0, 0, 0], r.2)

/-- The block count computed by `write_uncompressed` as a function of the
copied length alone. -/
def blocksOf (ts : Nat) : Int :=
  if ts = BRICK_SIZE then 8 else ((ts : Int) - 1).fdiv (BLOCK_SIZE : Int) + 1

/-- Closed form of the `uncompressed_size` array produced by
`write_uncompressed` as a function of the copied length alone. -/
def sizesOf (ts : Nat) : List Nat :=
  List.ofFn fun i : Fin 8 =>
    if ts = BRICK_SIZE then BLOCK_SIZE
    else if (i : Int) < blocksOf ts - 1 then BLOCK_SIZE
    else if (i : Int) = blocksOf ts - 1 then ts % BLOCK_SIZE
    else 0

/-- The byte records one brick contributes to the stream, computed from the
brick's data window alone (packing into canonical empty buffers). -/
def brickStream (comp : List Nat → List Nat) (w : List Nat) : List Nat :=
  let wu := write_uncompressed w [] (List.replicate 8 0)
  let k := kernelRun comp wu.buffers wu.sizes
  read_compressed [] k.1 k.2 wu.blocks

/-- All records between the header and the terminator, brick by brick. -/
def bodyStream (comp : List Nat → List Nat) (data : List Nat) : List Nat :=
  if data.length = 0 then []
  else brickStream comp data
    ++ bodyStream comp (data.drop (min data.length BRICK_SIZE))
termination_by data.length
decreasing_by
  have hB : 0 < BRICK_SIZE := by simp [BRICK_SIZE, BLOCK_SIZE]
  simp only [List.length_drop]
  omega

/-- Number of bricks a data stream of the given length is split into. -/
def nBricks (n : Nat) : Nat :=
  if n = 0 then 0 else 1 + nBricks (n - min n BRICK_SIZE)
termination_by n
decreasing_by
  have hB : 0 < BRICK_SIZE := by simp [BRICK_SIZE, BLOCK_SIZE]
  omega

/-- The event trace produced by `ov_loop` for one brick plus `n` further
bricks, starting at submission `subId` with active slot `active`; `pnz`
records whether a previous result is pending. -/
def mkLoopTrace (subId active : Nat) (pnz : Bool) (n : Nat) : List Event :=
  [Event.submit active subId]
    ++ (if pnz then [Event.unpack (active ^^^ 1)] else [])
    ++ (if n = 0 then [Event.wait subId, Event.unpack active]
        else [Event.pack (active ^^^ 1), Event.wait subId]
          ++ mkLoopTrace (subId + 1) (active ^^^ 1) true (n - 1))
termination_by n

/-- The compressed payload of each valid block of one brick, in block order
(the claim-side description of the stream contents). -/
def brickPayloads (comp : List Nat → List Nat) (w : List Nat) :
    List (List Nat) :=
  let wu := write_uncompressed w [] (List.replicate 8 0)
  (List.range (pyNorm 8 wu.blocks)).map fun i =>
    comp (kernelBlockIn wu.buffers wu.sizes i)

/-- The compressed payload of every valid block of the whole stream, brick by
brick in input order (the claim-side description of the stream contents). -/
def streamPayloads (comp : List Nat → List Nat) (data : List Nat) :
    List (List Nat) :=
  if data.length = 0 then []
  else brickPayloads comp data
    ++ streamPayloads comp (data.drop (min data.length BRICK_SIZE))
termination_by data.length
decreasing_by
  have hB : 0 < BRICK_SIZE := by simp [BRICK_SIZE, BLOCK_SIZE]
  simp only [List.length_drop]
  omega

/-- Little-endian decoding of a 4-byte length prefix. -/
def le32dec (bs : List Nat) : Nat :=
  bs.getD 0 0 + 256 * bs.getD 1 0 + 65536 * bs.getD 2 0 + 16777216 * bs.getD 3 0

/-- Modelled from the spec: the record layer of the software decompressor
(`lz4.frame.decompress`, an external library): repeated
`(4-byte little-endian length, payload)` records, terminated by a zero-length
record, each payload inverted by the per-block decompressor `decomp`. -/
def decompressRecords (decomp : List Nat → List Nat) (s : List Nat) :
    Option (List Nat) :=
  if s.length < 4 then none
  else
    let len := le32dec (s.take 4)
    if len = 0 then some []
    else if s.length < 4 + len then none
    else
      match decompressRecords decomp (s.drop (4 + len)) with
      | none => none
      | some rest => some (decomp ((s.drop 4).take len) ++ rest)
termination_by s.length
decreasing_by
  simp only [List.length_drop]
  omega

/-- Modelled from the spec: the software frame decompressor checks the fixed
7-byte header and then decodes the records. -/
def decompressFrame (decomp : List Nat → List Nat) (s : List Nat) :
    Option (List Nat) :=
  if s.take 7 = LZ4_HEADER then decompressRecords decomp (s.drop 7) else none

/-- `true` iff the event is a kernel submission. -/
def isSubmit : Event → Bool
  | Event.submit _ _ => true
  | _ => false

/-- `true` iff the event is a wait. -/
def isWait : Event → Bool
  | Event.wait _ => true
  | _ => false

/-- State machine checking that submissions and waits strictly alternate,
with matching ids: the state is the id of the outstanding submission, if
any. -/
def swOK : Option Nat → List Event → Prop
  | none, [] => True
  | some _, [] => False
  | none, Event.submit _ i :: r => swOK (some i) r
  | some _, Event.submit _ _ :: _ => False
  | some i, Event.wait j :: r => j = i ∧ swOK none r
  | none, Event.wait _ :: _ => False
  | st, Event.pack _ :: r => swOK st r
  | st, Event.unpack _ :: r => swOK st r

/-- State machine checking slot ownership: while a submission on slot `s` is
outstanding (state `some (s, i)`), the host neither packs nor unpacks slot
`s`. -/
def slotOK : Option (Nat × Nat) → List Event → Prop
  | _, [] => True
  | none, Event.submit s i :: r => slotOK (some (s, i)) r
  | some _, Event.submit _ _ :: _ => False
  | some p, Event.wait j :: r => j = p.2 ∧ slotOK none r
  | none, Event.wait _ :: _ => False
  | some p, Event.pack s :: r => s ≠ p.1 ∧ slotOK (some p) r
  | none, Event.pack _ :: r => slotOK none r
  | some p, Event.unpack s :: r => s ≠ p.1 ∧ slotOK (some p) r
  | none, Event.unpack _ :: r => slotOK none r

/-! ### Basic facts about the constants and `write_uncompressed` -/

theorem BLOCK_SIZE_pos : 0 < BLOCK_SIZE := by norm_num [BLOCK_SIZE]

theorem BRICK_SIZE_pos : 0 < BRICK_SIZE := by norm_num [BRICK_SIZE, BLOCK_SIZE]

theorem wu_total_size (d b s : List Nat) :
    (write_uncompressed d b s).total_size = min d.length BRICK_SIZE := by
  simp [write_uncompressed, apply_ite WUResult.total_size]

theorem wu_buffers (d b s : List Nat) :
    (write_uncompressed d b s).buffers
      = d.take (min d.length BRICK_SIZE) ++ b.drop (min d.length BRICK_SIZE) := by
  simp [write_uncompressed, apply_ite WUResult.buffers]

theorem wu_blocks (d b s : List Nat) :
    (write_uncompressed d b s).blocks = blocksOf (min d.length BRICK_SIZE) := by
  simp [write_uncompressed, blocksOf, apply_ite WUResult.blocks]

theorem blocksOf_zero : blocksOf 0 = 0 := by decide

theorem blocksOf_nonneg (ts : Nat) : 0 ≤ blocksOf ts := by
  unfold blocksOf
  split
  · norm_num
  · rcases Nat.eq_zero_or_pos ts with h0 | h1
    · subst h0; decide
    · have h2 : (0 : Int) ≤ (ts : Int) - 1 := by omega
      have := Int.fdiv_nonneg h2 (by positivity : (0:Int) ≤ (BLOCK_SIZE : Int))
      omega

theorem blocksOf_eq_of_pos (ts : Nat) (h1 : 1 ≤ ts) (h8 : ts ≠ BRICK_SIZE) :
    blocksOf ts = (((ts - 1) / BLOCK_SIZE : Nat) : Int) + 1 := by
  unfold blocksOf
  rw [if_neg h8]
  have hcast : ((ts : Int) - 1) = (((ts - 1 : Nat) : Int)) := by omega
  rw [hcast, ← Int.ofNat_fdiv]

theorem blocksOf_le_eight (ts : Nat) (h : ts ≤ BRICK_SIZE) : blocksOf ts ≤ 8 := by
  rcases Nat.eq_zero_or_pos ts with h0 | h1
  · subst h0; decide
  · by_cases h8 : ts = BRICK_SIZE
    · simp [blocksOf, h8]
    · rw [blocksOf_eq_of_pos ts h1 h8]
      have hb : BLOCK_SIZE = 1048576 := by norm_num [BLOCK_SIZE]
      have hbr : BRICK_SIZE = 8388608 := by norm_num [BRICK_SIZE, BLOCK_SIZE]
      rw [hb]
      rw [hbr] at h h8
      omega

theorem blocksOf_pos (ts : Nat) (h1 : 1 ≤ ts) : 1 ≤ blocksOf ts := by
  by_cases h8 : ts = BRICK_SIZE
  · simp [blocksOf, h8]
  · rw [blocksOf_eq_of_pos ts h1 h8]
    have hn : (0:Int) ≤ (((ts - 1) / BLOCK_SIZE : Nat) : Int) := Int.natCast_nonneg _
    omega

theorem pySliceSet_length (xs : List Nat) (lo hi : Int) (v : Nat) :
    (pySliceSet xs lo hi v).length = xs.length := by
  simp [pySliceSet]

theorem pyIdxSet_length (xs : List Nat) (j : Int) (v : Nat) :
    (pyIdxSet xs j v).length = xs.length := by
  simp only [pyIdxSet]
  split <;> split <;> simp

theorem pySliceSet_getElem? (xs : List Nat) (lo hi : Int) (v : Nat) (i : Nat) :
    (pySliceSet xs lo hi v)[i]?
      = if i < xs.length then
          (if pyNorm xs.length lo ≤ i ∧ i < pyNorm xs.length hi then some v
           else xs[i]?)
        else none := by
  simp only [pySliceSet, List.getElem?_ofFn, List.ofFnNthVal]
  by_cases hl : i < xs.length
  · rw [dif_pos hl, if_pos hl, apply_ite some, List.getElem?_eq_getElem hl,
      List.get_eq_getElem]
  · rw [dif_neg hl, if_neg hl]

theorem pyIdxSet_getElem? (xs : List Nat) (j : Int) (v : Nat) (i : Nat) :
    (pyIdxSet xs j v)[i]?
      = if 0 ≤ (if j < 0 then j + (xs.length : Int) else j)
          ∧ (if j < 0 then j + (xs.length : Int) else j).toNat = i ∧ i < xs.length
        then some v else xs[i]? := by
  simp only [pyIdxSet]
  by_cases h0 : 0 ≤ (if j < 0 then j + (xs.length : Int) else j)
  · rw [if_pos h0, List.getElem?_set]
    split_ifs <;>
      first
        | rfl
        | omega
        | exact (List.getElem?_eq_none (by omega)).symm
  · rw [if_neg h0]
    rw [if_neg (by intro hc; exact h0 hc.1)]

theorem sizesOf_length (ts : Nat) : (sizesOf ts).length = 8 := by
  simp [sizesOf]

theorem sizes_chain_eq (s : List Nat) (hs : s.length = 8) (M : Int)
    (h0 : 0 ≤ M) (h8 : M ≤ 8) (r : Nat) :
    pySliceSet (pyIdxSet (pySliceSet s 0 (M - 1) BLOCK_SIZE) (M - 1) r) M 8 0
      = List.ofFn fun i : Fin 8 =>
          if (i : Int) < M - 1 then BLOCK_SIZE
          else if (i : Int) = M - 1 then r else 0 := by
  apply List.ext_getElem?
  intro i
  have hl1 : (pySliceSet s 0 (M - 1) BLOCK_SIZE).length = 8 := by
    rw [pySliceSet_length, hs]
  have hl2 : (pyIdxSet (pySliceSet s 0 (M - 1) BLOCK_SIZE) (M - 1) r).length = 8 := by
    rw [pyIdxSet_length, hl1]
  rw [pySliceSet_getElem?, pyIdxSet_getElem?, pySliceSet_getElem?,
    List.getElem?_ofFn, hl1, hl2, hs]
  simp only [List.ofFnNthVal, pyNorm]
  by_cases hi : i < 8
  · rw [if_pos hi, dif_pos hi]
    split_ifs <;> first | rfl | omega
  · rw [if_neg hi, dif_neg hi]

theorem wu_sizes (d b s : List Nat) (hs : s.length = 8) :
    (write_uncompressed d b s).sizes = sizesOf (min d.length BRICK_SIZE) := by
  simp only [write_uncompressed, apply_ite WUResult.sizes]
  by_cases h8 : min d.length BRICK_SIZE = BRICK_SIZE
  · rw [if_pos h8, hs, h8]
    apply List.ext_getElem?
    intro i
    simp [sizesOf, List.getElem?_replicate, List.getElem?_ofFn, List.ofFnNthVal]
  · rw [if_neg h8]
    have hb : (((min d.length BRICK_SIZE : Nat) : Int) - 1).fdiv (BLOCK_SIZE : Int) + 1
        = blocksOf (min d.length BRICK_SIZE) := by
      rw [blocksOf, if_neg h8]
    rw [hb, sizes_chain_eq s hs _ (blocksOf_nonneg _)
      (blocksOf_le_eight _ (Nat.min_le_right _ _))]
    apply List.ext_getElem?
    intro i
    simp only [sizesOf, List.getElem?_ofFn, List.ofFnNthVal]
    by_cases hi : i < 8
    · rw [dif_pos hi, dif_pos hi]
      simp only [if_neg h8]
    · rw [dif_neg hi, dif_neg hi]

theorem sizesOf_getD (ts : Nat) (i : Nat) (hi : i < 8) :
    (sizesOf ts).getD i 0
      = (if ts = BRICK_SIZE then BLOCK_SIZE
         else if (i : Int) < blocksOf ts - 1 then BLOCK_SIZE
         else if (i : Int) = blocksOf ts - 1 then ts % BLOCK_SIZE else 0) := by
  rw [List.getD_eq_getElem?_getD]
  simp only [sizesOf, List.getElem?_ofFn, List.ofFnNthVal, dif_pos hi]
  rfl

theorem sizesOf_getD_le (ts : Nat) (hle : ts ≤ BRICK_SIZE) (i : Nat) (hi : i < 8)
    (hpos : (sizesOf ts).getD i 0 ≠ 0) :
    i * BLOCK_SIZE + min ((sizesOf ts).getD i 0) BLOCK_SIZE ≤ ts := by
  rw [sizesOf_getD ts i hi] at hpos ⊢
  by_cases h8 : ts = BRICK_SIZE
  · rw [if_pos h8] at hpos ⊢
    subst h8
    have hb : BLOCK_SIZE = 1048576 := by norm_num [BLOCK_SIZE]
    have hbr : BRICK_SIZE = 8388608 := by norm_num [BRICK_SIZE, BLOCK_SIZE]
    rw [hb, hbr]
    omega
  · rcases Nat.eq_zero_or_pos ts with h0 | h1
    · subst h0
      rw [if_neg h8, blocksOf_zero] at hpos
      simp at hpos
      omega
    · rw [if_neg h8, blocksOf_eq_of_pos ts h1 h8] at hpos ⊢
      have hb : BLOCK_SIZE = 1048576 := by norm_num [BLOCK_SIZE]
      have hbr : BRICK_SIZE = 8388608 := by norm_num [BRICK_SIZE, BLOCK_SIZE]
      rw [hb] at hpos ⊢
      rw [hbr] at hle h8
      split_ifs at hpos ⊢ <;> omega

theorem kernelBlockIn_stale (w r : List Nat) (ts : Nat)
    (hts : ts = min w.length BRICK_SIZE) (i : Nat) (hi : i < 8) :
    kernelBlockIn (w.take ts ++ r) (sizesOf ts) i
      = kernelBlockIn (w.take ts) (sizesOf ts) i := by
  by_cases hz : (sizesOf ts).getD i 0 = 0
  · unfold kernelBlockIn
    rw [hz]
    simp
  · have hbound := sizesOf_getD_le ts (by omega) i hi hz
    have hlen : (w.take ts).length = ts := by
      rw [List.length_take]
      omega
    unfold kernelBlockIn
    rw [List.drop_append_of_le_length (by rw [hlen]; omega),
      List.take_append_of_le_length (by simp only [List.length_drop, hlen]; omega)]

theorem kernelRun_stale (comp : List Nat → List Nat) (w r : List Nat) (ts : Nat)
    (hts : ts = min w.length BRICK_SIZE) :
    kernelRun comp (w.take ts ++ r) (sizesOf ts)
      = kernelRun comp (w.take ts) (sizesOf ts) := by
  unfold kernelRun
  have hcg : ∀ i ∈ List.range 8,
      comp (kernelBlockIn (w.take ts ++ r) (sizesOf ts) i)
        = comp (kernelBlockIn (w.take ts) (sizesOf ts) i) := by
    intro i hi
    rw [kernelBlockIn_stale w r ts hts i (List.mem_range.mp hi)]
  rw [List.map_congr_left hcg]

theorem kernelRun_wu (comp : List Nat → List Nat) (d b s : List Nat)
    (hs : s.length = 8) :
    kernelRun comp (write_uncompressed d b s).buffers (write_uncompressed d b s).sizes
      = kernelRun comp (write_uncompressed d [] (List.replicate 8 0)).buffers
          (write_uncompressed d [] (List.replicate 8 0)).sizes := by
  rw [wu_buffers, wu_buffers, wu_sizes d b s hs, wu_sizes d [] _ (by simp),
    List.drop_nil, List.append_nil]
  exact kernelRun_stale comp d (b.drop (min d.length BRICK_SIZE)) _ rfl

theorem read_compressed_append (stream : List Nat) (rows : List (List Nat))
    (csz : List Nat) (blocks : Int) :
    read_compressed stream rows csz blocks
      = stream ++ read_compressed [] rows csz blocks := by
  simp [read_compressed]

theorem brickStream_canonical (comp : List Nat → List Nat) (view b s : List Nat)
    (hs : s.length = 8) :
    read_compressed []
        (kernelRun comp (write_uncompressed view b s).buffers
          (write_uncompressed view b s).sizes).1
        (kernelRun comp (write_uncompressed view b s).buffers
          (write_uncompressed view b s).sizes).2
        (write_uncompressed view b s).blocks
      = brickStream comp view := by
  rw [brickStream]
  rw [kernelRun_wu comp view b s hs, wu_blocks, wu_blocks]

theorem compress_hw_go_eq (comp : List Nat → List Nat) :
    ∀ (n : Nat) (view stream b s : List Nat), view.length = n → s.length = 8 →
      compress_hw_go comp view stream b s
        = (stream ++ bodyStream comp view, nBricks view.length) := by
  intro n
  induction n using Nat.strong_induction_on with
  | _ n ih =>
    intro view stream b s hn hs
    by_cases hv : view.length = 0
    · rw [compress_hw_go, if_pos hv, bodyStream, if_pos hv, hv, nBricks, if_pos rfl]
      simp
    · rw [compress_hw_go, if_neg hv]
      simp only []
      have hlen8 : (write_uncompressed view b s).sizes.length = 8 := by
        rw [wu_sizes view b s hs, sizesOf_length]
      have hdl : (view.drop (write_uncompressed view b s).total_size).length < n := by
        rw [wu_total_size, List.length_drop]
        have hB := BRICK_SIZE_pos
        omega
      rw [ih _ hdl _ _ _ _ rfl hlen8]
      rw [read_compressed_append, brickStream_canonical comp view b s hs,
        wu_total_size]
      rw [show bodyStream comp view
          = brickStream comp view
            ++ bodyStream comp (view.drop (min view.length BRICK_SIZE)) from by
        rw [bodyStream, if_neg hv]]
      rw [show nBricks view.length
          = 1 + nBricks (view.length - min view.length BRICK_SIZE) from by
        rw [nBricks, if_neg hv]]
      simp [List.length_drop]
      omega

theorem compress_hw_eq (comp : List Nat → List Nat) (data : List Nat) :
    compress_hw comp data
      = (LZ4_HEADER ++ bodyStream comp data ++ [0, 0, 0, 0],
         nBricks data.length) := by
  rw [compress_hw]
  rw [compress_hw_go_eq comp data.length data LZ4_HEADER _ _ rfl (by simp)]

theorem bodyStream_nil (comp : List Nat → List Nat) : bodyStream comp [] = [] := by
  rw [bodyStream]
  simp

theorem brickStream_eq (comp : List Nat → List Nat) (w : List Nat) :
    brickStream comp w
      = read_compressed []
          (kernelRun comp (w.take (min w.length BRICK_SIZE))
            (sizesOf (min w.length BRICK_SIZE))).1
          (kernelRun comp (w.take (min w.length BRICK_SIZE))
            (sizesOf (min w.length BRICK_SIZE))).2
          (blocksOf (min w.length BRICK_SIZE)) := by
  rw [brickStream, wu_buffers, wu_sizes _ _ _ (by simp), wu_blocks,
    List.drop_nil, List.append_nil]

theorem xor_zero_one : (0 : Nat) ^^^ 1 = 1 := by decide

theorem xor_one_one : (1 : Nat) ^^^ 1 = 0 := by decide


theorem ite_cond_one_zero {α : Sort 1} (a b : α) :
    (if (1 : Nat) = 0 then a else b) = b := if_neg (by decide)

theorem ov_loop_eq (comp : List Nat → List Nat) :
    ∀ (fuel : Nat) (view : List Nat) (offset active : Nat)
      (previous_blocks blocks : Int) (brick_size : Nat) (s0 s1 : Slot)
      (stream : List Nat) (trace : List Event) (subId : Nat)
      (pendingRec : List Nat) (pnz : Bool),
      view.length - offset = fuel →
      brick_size = min (view.length - offset) BRICK_SIZE →
      blocks = blocksOf brick_size →
      active ≤ 1 →
      s0.usz.length = 8 →
      s1.usz.length = 8 →
      kernelRun comp (if active = 0 then s0 else s1).buf
          (if active = 0 then s0 else s1).usz
        = kernelRun comp ((view.drop offset).take brick_size) (sizesOf brick_size) →
      (previous_blocks = 0 → pendingRec = [] ∧ pnz = false) →
      (previous_blocks ≠ 0 →
        read_compressed [] (if active ^^^ 1 = 0 then s0 else s1).rows
            (if active ^^^ 1 = 0 then s0 else s1).csz previous_blocks = pendingRec
          ∧ pnz = true) →
      ∀ (hbs : offset < view.length → 1 ≤ brick_size),
      ov_loop comp view offset active previous_blocks blocks brick_size
          s0 s1 stream trace subId hbs
        = (stream ++ pendingRec ++ brickStream comp (view.drop offset)
            ++ bodyStream comp (view.drop (offset + brick_size)),
           trace ++ mkLoopTrace subId active pnz
             (nBricks (view.length - (offset + brick_size)))) := by
  intro fuel
  induction fuel using Nat.strong_induction_on with
  | _ fuel ih =>
    intro view offset active previous_blocks blocks brick_size s0 s1 stream
      trace subId pendingRec pnz hfuel hbsz hblk hact hu0 hu1 hSA hp0 hp1 hbs
    subst hblk hbsz hfuel
    rw [ov_loop]
    rcases Nat.le_one_iff_eq_zero_or_eq_one.mp hact with ha | ha
    · subst ha
      simp only [xor_zero_one, reduceIte, ite_cond_one_zero] at hSA hp1 ⊢
      by_cases h : offset + (view.length - offset) ⊓ BRICK_SIZE < view.length
      · rw [dif_pos h]
        have hb1 : 1 ≤ (view.length - offset) ⊓ BRICK_SIZE := hbs (by omega)
        have hm : view.length - (offset + (view.length - offset) ⊓ BRICK_SIZE)
            < view.length - offset := by omega
        rw [ih (view.length - (offset + (view.length - offset) ⊓ BRICK_SIZE)) hm
          view (offset + (view.length - offset) ⊓ BRICK_SIZE) 1
          (blocksOf ((view.length - offset) ⊓ BRICK_SIZE)) _ _ _ _ _ _ _
          (brickStream comp (List.drop offset view)) true]
        · rw [wu_total_size]
          simp only [List.length_drop]
          rw [show bodyStream comp (List.drop (offset + (view.length - offset) ⊓ BRICK_SIZE) view)
              = brickStream comp (List.drop (offset + (view.length - offset) ⊓ BRICK_SIZE) view)
                ++ bodyStream comp (List.drop
                    (offset + (view.length - offset) ⊓ BRICK_SIZE
                      + (view.length - (offset + (view.length - offset) ⊓ BRICK_SIZE)) ⊓ BRICK_SIZE) view) from by
            rw [bodyStream, if_neg (by simp only [List.length_drop]; omega)]
            rw [List.length_drop, List.drop_drop]]
          rw [show nBricks (view.length - (offset + (view.length - offset) ⊓ BRICK_SIZE))
              = 1 + nBricks (view.length - (offset + (view.length - offset) ⊓ BRICK_SIZE)
                  - (view.length - (offset + (view.length - offset) ⊓ BRICK_SIZE)) ⊓ BRICK_SIZE) from by
            rw [nBricks, if_neg (by omega)]]
          rw [show mkLoopTrace subId 0 pnz
              (1 + nBricks (view.length - (offset + (view.length - offset) ⊓ BRICK_SIZE)
                  - (view.length - (offset + (view.length - offset) ⊓ BRICK_SIZE)) ⊓ BRICK_SIZE))
              = [Event.submit 0 subId] ++ (if pnz then [Event.unpack 1] else [])
                ++ ([Event.pack 1, Event.wait subId]
                  ++ mkLoopTrace (subId + 1) 1 true
                    (nBricks (view.length - (offset + (view.length - offset) ⊓ BRICK_SIZE)
                      - (view.length - (offset + (view.length - offset) ⊓ BRICK_SIZE)) ⊓ BRICK_SIZE))) from by
            rw [mkLoopTrace, if_neg (show ¬(1 + nBricks (view.length
              - (offset + (view.length - offset) ⊓ BRICK_SIZE)
              - (view.length - (offset + (view.length - offset) ⊓ BRICK_SIZE)) ⊓ BRICK_SIZE) = 0) from by omega)]
            simp [xor_zero_one]]
          by_cases hpz : previous_blocks = 0
          · obtain ⟨hpr, hpn⟩ := hp0 hpz
            subst hpr hpn
            rw [if_neg (by simp [hpz]), if_neg (by simp [hpz])]
            simp [List.append_assoc, Nat.sub_add_eq]
          · obtain ⟨hpr, hpn⟩ := hp1 hpz
            subst hpn
            rw [if_pos hpz, if_pos hpz, read_compressed_append, hpr]
            simp [List.append_assoc, Nat.sub_add_eq]
        · rfl
        · rw [wu_total_size, List.length_drop]
        · rw [wu_blocks, wu_total_size]
        · omega
        · exact hu0
        · show (write_uncompressed
              (List.drop (offset + (view.length - offset) ⊓ BRICK_SIZE) view)
              s1.buf s1.usz).sizes.length = 8
          rw [wu_sizes _ _ _ hu1, sizesOf_length]
        · show kernelRun comp
              (write_uncompressed
                (List.drop (offset + (view.length - offset) ⊓ BRICK_SIZE) view)
                s1.buf s1.usz).buffers
              (write_uncompressed
                (List.drop (offset + (view.length - offset) ⊓ BRICK_SIZE) view)
                s1.buf s1.usz).sizes
            = kernelRun comp
              (List.take (write_uncompressed
                  (List.drop (offset + (view.length - offset) ⊓ BRICK_SIZE) view)
                  s1.buf s1.usz).total_size
                (List.drop (offset + (view.length - offset) ⊓ BRICK_SIZE) view))
              (sizesOf (write_uncompressed
                  (List.drop (offset + (view.length - offset) ⊓ BRICK_SIZE) view)
                  s1.buf s1.usz).total_size)
          rw [wu_buffers, wu_sizes _ _ _ hu1, wu_total_size]
          exact kernelRun_stale comp
            (List.drop (offset + (view.length - offset) ⊓ BRICK_SIZE) view) _ _ rfl
        · intro h0
          have hbp := blocksOf_pos _ hb1
          exact absurd h0 (by omega)
        · intro _
          refine ⟨?_, rfl⟩
          show read_compressed [] (kernelRun comp s0.buf s0.usz).1
              (kernelRun comp s0.buf s0.usz).2
              (blocksOf ((view.length - offset) ⊓ BRICK_SIZE))
            = brickStream comp (List.drop offset view)
          rw [hSA, brickStream_eq, List.length_drop]
      · rw [dif_neg h]
        have hdrop : List.drop (offset + (view.length - offset) ⊓ BRICK_SIZE) view = [] :=
          List.drop_eq_nil_of_le (by omega)
        rw [hdrop, bodyStream_nil, List.append_nil]
        rw [show view.length - (offset + (view.length - offset) ⊓ BRICK_SIZE) = 0 from by
          omega]
        rw [show mkLoopTrace subId 0 pnz (nBricks 0)
            = [Event.submit 0 subId] ++ (if pnz then [Event.unpack 1] else [])
              ++ [Event.wait subId, Event.unpack 0] from by
          rw [show nBricks 0 = 0 from by rw [nBricks]; simp]
          rw [mkLoopTrace]
          simp [xor_zero_one]]
        rw [read_compressed_append]
        rw [show read_compressed [] (kernelRun comp s0.buf s0.usz).1
            (kernelRun comp s0.buf s0.usz).2
            (blocksOf ((view.length - offset) ⊓ BRICK_SIZE))
            = brickStream comp (List.drop offset view) from by
          rw [hSA, brickStream_eq, List.length_drop]]
        by_cases hpz : previous_blocks = 0
        · obtain ⟨hpr, hpn⟩ := hp0 hpz
          subst hpr hpn
          rw [if_neg (by simp [hpz]), if_neg (by simp [hpz])]
          simp [List.append_assoc]
        · obtain ⟨hpr, hpn⟩ := hp1 hpz
          subst hpn
          rw [if_pos hpz, if_pos hpz, read_compressed_append, hpr]
          simp [List.append_assoc]
    · subst ha
      simp only [xor_one_one, reduceIte, ite_cond_one_zero] at hSA hp1 ⊢
      by_cases h : offset + (view.length - offset) ⊓ BRICK_SIZE < view.length
      · rw [dif_pos h]
        have hb1 : 1 ≤ (view.length - offset) ⊓ BRICK_SIZE := hbs (by omega)
        have hm : view.length - (offset + (view.length - offset) ⊓ BRICK_SIZE)
            < view.length - offset := by omega
        rw [ih (view.length - (offset + (view.length - offset) ⊓ BRICK_SIZE)) hm
          view (offset + (view.length - offset) ⊓ BRICK_SIZE) 0
          (blocksOf ((view.length - offset) ⊓ BRICK_SIZE)) _ _ _ _ _ _ _
          (brickStream comp (List.drop offset view)) true]
        · rw [wu_total_size]
          simp only [List.length_drop]
          rw [show bodyStream comp (List.drop (offset + (view.length - offset) ⊓ BRICK_SIZE) view)
              = brickStream comp (List.drop (offset + (view.length - offset) ⊓ BRICK_SIZE) view)
                ++ bodyStream comp (List.drop
                    (offset + (view.length - offset) ⊓ BRICK_SIZE
                      + (view.length - (offset + (view.length - offset) ⊓ BRICK_SIZE)) ⊓ BRICK_SIZE) view) from by
            rw [bodyStream, if_neg (by simp only [List.length_drop]; omega)]
            rw [List.length_drop, List.drop_drop]]
          rw [show nBricks (view.length - (offset + (view.length - offset) ⊓ BRICK_SIZE))
              = 1 + nBricks (view.length - (offset + (view.length - offset) ⊓ BRICK_SIZE)
                  - (view.length - (offset + (view.length - offset) ⊓ BRICK_SIZE)) ⊓ BRICK_SIZE) from by
            rw [nBricks, if_neg (by omega)]]
          rw [show mkLoopTrace subId 1 pnz
              (1 + nBricks (view.length - (offset + (view.length - offset) ⊓ BRICK_SIZE)
                  - (view.length - (offset + (view.length - offset) ⊓ BRICK_SIZE)) ⊓ BRICK_SIZE))
              = [Event.submit 1 subId] ++ (if pnz then [Event.unpack 0] else [])
                ++ ([Event.pack 0, Event.wait subId]
                  ++ mkLoopTrace (subId + 1) 0 true
                    (nBricks (view.length - (offset + (view.length - offset) ⊓ BRICK_SIZE)
                      - (view.length - (offset + (view.length - offset) ⊓ BRICK_SIZE)) ⊓ BRICK_SIZE))) from by
            rw [mkLoopTrace, if_neg (show ¬(1 + nBricks (view.length
              - (offset + (view.length - offset) ⊓ BRICK_SIZE)
              - (view.length - (offset + (view.length - offset) ⊓ BRICK_SIZE)) ⊓ BRICK_SIZE) = 0) from by omega)]
            simp [xor_one_one]]
          by_cases hpz : previous_blocks = 0
          · obtain ⟨hpr, hpn⟩ := hp0 hpz
            subst hpr hpn
            rw [if_neg (by simp [hpz]), if_neg (by simp [hpz])]
            simp [List.append_assoc, Nat.sub_add_eq]
          · obtain ⟨hpr, hpn⟩ := hp1 hpz
            subst hpn
            rw [if_pos hpz, if_pos hpz, read_compressed_append, hpr]
            simp [List.append_assoc, Nat.sub_add_eq]
        · rfl
        · rw [wu_total_size, List.length_drop]
        · rw [wu_blocks, wu_total_size]
        · omega
        · show (write_uncompressed
              (List.drop (offset + (view.length - offset) ⊓ BRICK_SIZE) view)
              s0.buf s0.usz).sizes.length = 8
          rw [wu_sizes _ _ _ hu0, sizesOf_length]
        · exact hu1
        · show kernelRun comp
              (write_uncompressed
                (List.drop (offset + (view.length - offset) ⊓ BRICK_SIZE) view)
                s0.buf s0.usz).buffers
              (write_uncompressed
                (List.drop (offset + (view.length - offset) ⊓ BRICK_SIZE) view)
                s0.buf s0.usz).sizes
            = kernelRun comp
              (List.take (write_uncompressed
                  (List.drop (offset + (view.length - offset) ⊓ BRICK_SIZE) view)
                  s0.buf s0.usz).total_size
                (List.drop (offset + (view.length - offset) ⊓ BRICK_SIZE) view))
              (sizesOf (write_uncompressed
                  (List.drop (offset + (view.length - offset) ⊓ BRICK_SIZE) view)
                  s0.buf s0.usz).total_size)
          rw [wu_buffers, wu_sizes _ _ _ hu0, wu_total_size]
          exact kernelRun_stale comp
            (List.drop (offset + (view.length - offset) ⊓ BRICK_SIZE) view) _ _ rfl
        · intro h0
          have hbp := blocksOf_pos _ hb1
          exact absurd h0 (by omega)
        · intro _
          refine ⟨?_, rfl⟩
          show read_compressed [] (kernelRun comp s1.buf s1.usz).1
              (kernelRun comp s1.buf s1.usz).2
              (blocksOf ((view.length - offset) ⊓ BRICK_SIZE))
            = brickStream comp (List.drop offset view)
          rw [hSA, brickStream_eq, List.length_drop]
      · rw [dif_neg h]
        have hdrop : List.drop (offset + (view.length - offset) ⊓ BRICK_SIZE) view = [] :=
          List.drop_eq_nil_of_le (by omega)
        rw [hdrop, bodyStream_nil, List.append_nil]
        rw [show view.length - (offset + (view.length - offset) ⊓ BRICK_SIZE) = 0 from by
          omega]
        rw [show mkLoopTrace subId 1 pnz (nBricks 0)
            = [Event.submit 1 subId] ++ (if pnz then [Event.unpack 0] else [])
              ++ [Event.wait subId, Event.unpack 1] from by
          rw [show nBricks 0 = 0 from by rw [nBricks]; simp]
          rw [mkLoopTrace]
          simp [xor_one_one]]
        rw [read_compressed_append]
        rw [show read_compressed [] (kernelRun comp s1.buf s1.usz).1
            (kernelRun comp s1.buf s1.usz).2
            (blocksOf ((view.length - offset) ⊓ BRICK_SIZE))
            = brickStream comp (List.drop offset view) from by
          rw [hSA, brickStream_eq, List.length_drop]]
        by_cases hpz : previous_blocks = 0
        · obtain ⟨hpr, hpn⟩ := hp0 hpz
          subst hpr hpn
          rw [if_neg (by simp [hpz]), if_neg (by simp [hpz])]
          simp [List.append_assoc]
        · obtain ⟨hpr, hpn⟩ := hp1 hpz
          subst hpn
          rw [if_pos hpz, if_pos hpz, read_compressed_append, hpr]
          simp [List.append_assoc]

theorem brickStream_nil (comp : List Nat → List Nat) : brickStream comp [] = [] := by
  rw [brickStream_eq]
  simp only [List.length_nil]
  rw [show min 0 BRICK_SIZE = 0 from by omega, blocksOf_zero]
  simp [read_compressed, pySliceGet, pyNorm]

theorem compress_overlapped_eq (comp : List Nat → List Nat) (data : List Nat) :
    compress_overlapped comp data
      = (LZ4_HEADER ++ bodyStream comp data ++ [0, 0, 0, 0],
         Event.pack 0 :: mkLoopTrace 0 0 false
           (nBricks (data.length - min data.length BRICK_SIZE))) := by
  rw [compress_overlapped]
  rw [ov_loop_eq comp (data.length - 0) data 0 0 0
    (write_uncompressed data slotInit.buf slotInit.usz).blocks
    (write_uncompressed data slotInit.buf slotInit.usz).total_size _ _
    LZ4_HEADER [Event.pack 0] 0 [] false rfl
    (by rw [wu_total_size, Nat.sub_zero])
    (by rw [wu_blocks, wu_total_size])
    (by omega)
    (by show (write_uncompressed data slotInit.buf slotInit.usz).sizes.length = 8
        rw [wu_sizes _ _ _ (by simp [slotInit]), sizesOf_length])
    (by simp [slotInit])
    (by
      show kernelRun comp (write_uncompressed data slotInit.buf slotInit.usz).buffers
          (write_uncompressed data slotInit.buf slotInit.usz).sizes
        = kernelRun comp
            (List.take (write_uncompressed data slotInit.buf slotInit.usz).total_size
              (List.drop 0 data))
            (sizesOf (write_uncompressed data slotInit.buf slotInit.usz).total_size)
      rw [wu_buffers, wu_sizes _ _ _ (by simp [slotInit]), wu_total_size,
        List.drop_zero]
      exact kernelRun_stale comp data _ _ rfl)
    (by intro _; exact ⟨rfl, rfl⟩)
    (by intro hc; exact absurd rfl hc)]
  rw [wu_total_size]
  simp only [List.drop_zero, Nat.zero_add, Nat.sub_zero]
  by_cases hd : data.length = 0
  · have hnil : data = [] := List.length_eq_zero.mp hd
    subst hnil
    simp [bodyStream_nil, brickStream_nil, List.append_nil, nBricks]
  · rw [show bodyStream comp data
        = brickStream comp data
          ++ bodyStream comp (data.drop (min data.length BRICK_SIZE)) from by
      rw [bodyStream, if_neg hd]]
    simp [List.append_assoc, Nat.sub_zero]

/-! ### The top-level equivalence (claim C1) and trace machinery -/

/-- C1: for every input byte sequence, the stream produced by the pipelined
compressor `compress_overlapped` is byte-for-byte equal to the stream produced
by the non-overlapped reference `compress_hw`, for the same deterministic
per-block accelerator behaviour `comp`. -/
theorem compress_overlapped_equals_compress_hw (comp : List Nat → List Nat)
    (D : List Nat) :
    (compress_overlapped comp D).1 = (compress_hw comp D).1 := by
  rw [compress_overlapped_eq, compress_hw_eq]

theorem nBricks_zero : nBricks 0 = 0 := by
  rw [nBricks]
  simp

theorem mkLoopTrace_last (subId a : Nat) (pnz : Bool) :
    mkLoopTrace subId a pnz 0
      = [Event.submit a subId] ++ (if pnz then [Event.unpack (a ^^^ 1)] else [])
        ++ [Event.wait subId, Event.unpack a] := by
  rw [mkLoopTrace]
  simp

theorem mkLoopTrace_cons (subId a : Nat) (pnz : Bool) (n : Nat) (hn : n ≠ 0) :
    mkLoopTrace subId a pnz n
      = [Event.submit a subId] ++ (if pnz then [Event.unpack (a ^^^ 1)] else [])
        ++ ([Event.pack (a ^^^ 1), Event.wait subId]
          ++ mkLoopTrace (subId + 1) (a ^^^ 1) true (n - 1)) := by
  rw [mkLoopTrace, if_neg hn]

theorem xor_one_le (a : Nat) (ha : a ≤ 1) : a ^^^ 1 ≤ 1 ∧ a ^^^ 1 ≠ a := by
  rcases Nat.le_one_iff_eq_zero_or_eq_one.mp ha with h | h <;> subst h <;> decide

theorem mkLoopTrace_swOK (n : Nat) :
    ∀ (subId a : Nat) (pnz : Bool), swOK none (mkLoopTrace subId a pnz n) := by
  induction n with
  | zero =>
    intro subId a pnz
    rw [mkLoopTrace_last]
    rcases pnz <;> simp [swOK]
  | succ n ihn =>
    intro subId a pnz
    rw [mkLoopTrace_cons subId a pnz (n + 1) (by omega)]
    have ht := ihn (subId + 1) (a ^^^ 1) true
    rcases pnz <;> simp [swOK] <;> simpa using ht

theorem mkLoopTrace_slotOK (n : Nat) :
    ∀ (subId a : Nat) (pnz : Bool), a ≤ 1 →
      slotOK none (mkLoopTrace subId a pnz n) := by
  induction n with
  | zero =>
    intro subId a pnz ha
    obtain ⟨hx1, hx2⟩ := xor_one_le a ha
    rw [mkLoopTrace_last]
    rcases pnz <;> simp [slotOK] <;> omega
  | succ n ihn =>
    intro subId a pnz ha
    obtain ⟨hx1, hx2⟩ := xor_one_le a ha
    rw [mkLoopTrace_cons subId a pnz (n + 1) (by omega)]
    have ht := ihn (subId + 1) (a ^^^ 1) true hx1
    rcases pnz <;> simp [slotOK] <;>
      first
        | (exact ⟨hx2, by simpa using ht⟩)
        | (exact ⟨fun hc => absurd hc.symm hx2, by simpa using ht⟩)

theorem swOK_counts :
    ∀ (t : List Event) (st : Option Nat), swOK st t →
    ∀ k, (t.take k).countP isWait
        ≤ (if st.isSome then 1 else 0) + (t.take k).countP isSubmit
      ∧ (if st.isSome then 1 else 0) + (t.take k).countP isSubmit
        ≤ (t.take k).countP isWait + 1 := by
  intro t
  induction t with
  | nil =>
    intro st hok k
    rcases st <;> simp
  | cons e t2 iht =>
    intro st hok k
    rcases k with _ | k
    · rcases st <;> simp
    · rw [List.take_succ_cons]
      rcases e with s | ⟨s, i⟩ | i | s
      · rcases st with _ | j
        · simp only [swOK] at hok
          have := iht none hok k
          simp only [List.countP_cons, isWait, isSubmit, Option.isSome] at this ⊢
          omega
        · simp only [swOK] at hok
          have := iht (some j) hok k
          simp only [List.countP_cons, isWait, isSubmit, Option.isSome] at this ⊢
          omega
      · rcases st with _ | j
        · simp only [swOK] at hok
          have := iht (some i) hok k
          simp only [List.countP_cons, isWait, isSubmit, Option.isSome] at this ⊢
          omega
        · simp only [swOK] at hok
      · rcases st with _ | j
        · simp only [swOK] at hok
        · simp only [swOK] at hok
          have := iht none hok.2 k
          simp only [List.countP_cons, isWait, isSubmit, Option.isSome] at this ⊢
          omega
      · rcases st with _ | j
        · simp only [swOK] at hok
          have := iht none hok k
          simp only [List.countP_cons, isWait, isSubmit, Option.isSome] at this ⊢
          omega
        · simp only [swOK] at hok
          have := iht (some j) hok k
          simp only [List.countP_cons, isWait, isSubmit, Option.isSome] at this ⊢
          omega

theorem swOK_wait_first :
    ∀ (t : List Event) (i : Nat), swOK (some i) t →
    ∀ (q s2 j : Nat), t[q]? = some (Event.submit s2 j) →
      ∃ r, r < q ∧ t[r]? = some (Event.wait i) := by
  intro t
  induction t with
  | nil =>
    intro i hok q s2 j hq
    simp at hq
  | cons e t2 iht =>
    intro i hok q s2 j hq
    rcases e with s | ⟨s, i2⟩ | i2 | s
    · rcases q with _ | q
      · simp at hq
      · simp only [List.getElem?_cons_succ] at hq
        obtain ⟨r, hr1, hr2⟩ := iht i (by simpa [swOK] using hok) q s2 j hq
        exact ⟨r + 1, by omega, by simpa [List.getElem?_cons_succ] using hr2⟩
    · simp only [swOK] at hok
    · simp only [swOK] at hok
      obtain ⟨hji, hok2⟩ := hok
      rcases q with _ | q
      · simp at hq
      · refine ⟨0, by omega, ?_⟩
        simp [hji]
    · rcases q with _ | q
      · simp at hq
      · simp only [List.getElem?_cons_succ] at hq
        obtain ⟨r, hr1, hr2⟩ := iht i (by simpa [swOK] using hok) q s2 j hq
        exact ⟨r + 1, by omega, by simpa [List.getElem?_cons_succ] using hr2⟩

theorem swOK_wait_between :
    ∀ (t : List Event) (st : Option Nat), swOK st t →
    ∀ (p q s i s2 j : Nat), t[p]? = some (Event.submit s i) →
      t[q]? = some (Event.submit s2 j) → p < q →
      ∃ r, p < r ∧ r < q ∧ t[r]? = some (Event.wait i) := by
  intro t
  induction t with
  | nil =>
    intro st hok p q s i s2 j hp hq hpq
    simp at hp
  | cons e t2 iht =>
    intro st hok p q s i s2 j hp hq hpq
    rcases p with _ | p
    · rw [List.getElem?_cons_zero] at hp
      injection hp with hp
      subst hp
      rcases st with _ | i0
      · simp only [swOK] at hok
        rcases q with _ | q
        · omega
        · simp only [List.getElem?_cons_succ] at hq
          obtain ⟨r, hr1, hr2⟩ := swOK_wait_first t2 i hok q s2 j hq
          exact ⟨r + 1, by omega, by omega,
            by simpa [List.getElem?_cons_succ] using hr2⟩
      · simp only [swOK] at hok
    · rcases q with _ | q
      · omega
      · simp only [List.getElem?_cons_succ] at hp hq
        have hstep : ∃ st2, swOK st2 t2 := by
          rcases e with s3 | ⟨s3, i3⟩ | i3 | s3 <;> rcases st with _ | j3 <;>
            simp only [swOK] at hok
          · exact ⟨none, hok⟩
          · exact ⟨some j3, hok⟩
          · exact ⟨some i3, hok⟩
          · exact ⟨none, hok.2⟩
          · exact ⟨none, hok⟩
          · exact ⟨some j3, hok⟩
        obtain ⟨st2, hok2⟩ := hstep
        obtain ⟨r, hr1, hr2, hr3⟩ := iht st2 hok2 p q s i s2 j hp hq (by omega)
        exact ⟨r + 1, by omega, by omega,
          by simpa [List.getElem?_cons_succ] using hr3⟩

theorem slotOK_span :
    ∀ (t : List Event) (s i : Nat), slotOK (some (s, i)) t →
    ∀ (q : Nat), t[q]? = some (Event.wait i) →
      (∀ r, r < q → t[r]? ≠ some (Event.wait i)) →
      ∀ r, r < q → t[r]? ≠ some (Event.pack s)
        ∧ t[r]? ≠ some (Event.unpack s) := by
  intro t
  induction t with
  | nil =>
    intro s i hok q hq hw r hr
    simp at hq
  | cons e t2 iht =>
    intro s i hok q hq hw r hr
    rcases e with s2 | ⟨s2, i2⟩ | i2 | s2
    · rcases q with _ | q
      · omega
      · simp only [slotOK] at hok
        rcases r with _ | r
        · simp
          omega
        · simp only [List.getElem?_cons_succ] at hq ⊢
          exact iht s i hok.2 q hq
            (fun r2 hr2 => by
              have := hw (r2 + 1) (by omega)
              simpa [List.getElem?_cons_succ] using this)
            r (by omega)
    · simp only [slotOK] at hok
    · simp only [slotOK] at hok
      obtain ⟨hii, hok2⟩ := hok
      subst hii
      rcases q with _ | q
      · omega
      · exact absurd (by simp : (Event.wait i2 :: t2)[0]? = some (Event.wait i2))
          (hw 0 (by omega))
    · rcases q with _ | q
      · omega
      · simp only [slotOK] at hok
        rcases r with _ | r
        · simp
          omega
        · simp only [List.getElem?_cons_succ] at hq ⊢
          exact iht s i hok.2 q hq
            (fun r2 hr2 => by
              have := hw (r2 + 1) (by omega)
              simpa [List.getElem?_cons_succ] using this)
            r (by omega)

theorem slotOK_after_submit :
    ∀ (t : List Event) (st : Option (Nat × Nat)), slotOK st t →
    ∀ (p s i : Nat), t[p]? = some (Event.submit s i) →
      slotOK (some (s, i)) (t.drop (p + 1)) := by
  intro t
  induction t with
  | nil =>
    intro st hok p s i hp
    simp at hp
  | cons e t2 iht =>
    intro st hok p s i hp
    rcases p with _ | p
    · rw [List.getElem?_cons_zero] at hp
      injection hp with hp
      subst hp
      rcases st with _ | p0
      · simpa [slotOK] using hok
      · simp only [slotOK] at hok
    · simp only [List.getElem?_cons_succ] at hp
      rw [List.drop_succ_cons]
      have hstep : ∃ st2, slotOK st2 t2 := by
        rcases e with s3 | ⟨s3, i3⟩ | i3 | s3 <;> rcases st with _ | j3 <;>
          simp only [slotOK] at hok
        · exact ⟨none, hok⟩
        · exact ⟨some j3, hok.2⟩
        · exact ⟨some (s3, i3), hok⟩
        · exact ⟨none, hok.2⟩
        · exact ⟨none, hok⟩
        · exact ⟨some j3, hok.2⟩
      obtain ⟨st2, hok2⟩ := hstep
      exact iht st2 hok2 p s i hp

theorem mkLoopTrace_wait_count (n : Nat) :
    ∀ (subId a : Nat) (pnz : Bool) (i : Nat),
      (mkLoopTrace subId a pnz n).countP (fun e => e == Event.wait i)
        = if subId ≤ i ∧ i ≤ subId + n then 1 else 0 := by
  induction n with
  | zero =>
    intro subId a pnz i
    rw [mkLoopTrace_last]
    rcases pnz <;>
      simp [List.countP_append, List.countP_cons, beq_iff_eq] <;>
      split_ifs <;> first | rfl | omega | simp_all | (simp_all; omega)
  | succ n ihn =>
    intro subId a pnz i
    rw [mkLoopTrace_cons subId a pnz (n + 1) (by omega)]
    have ht := ihn (subId + 1) (a ^^^ 1) true i
    rcases pnz <;>
      simp [List.countP_append, List.countP_cons, beq_iff_eq, ht] <;>
      split_ifs <;> first | rfl | omega | simp_all | (simp_all; omega)

theorem mkLoopTrace_submit_count (n : Nat) :
    ∀ (subId a : Nat) (pnz : Bool),
      (mkLoopTrace subId a pnz n).countP isSubmit = n + 1 := by
  induction n with
  | zero =>
    intro subId a pnz
    rw [mkLoopTrace_last]
    rcases pnz <;> simp [List.countP_append, List.countP_cons, isSubmit]
  | succ n ihn =>
    intro subId a pnz
    rw [mkLoopTrace_cons subId a pnz (n + 1) (by omega)]
    have ht := ihn (subId + 1) (a ^^^ 1) true
    rcases pnz <;>
      simp [List.countP_append, List.countP_cons, isSubmit, ht]

theorem two_positions_countP (t : List Event) (x : Event) (p q : Nat)
    (hp : t[p]? = some x) (hq : t[q]? = some x) (hpq : p < q) :
    2 ≤ t.countP (fun e => e == x) := by
  have hsplit : t = t.take q ++ t.drop q := (List.take_append_drop q t).symm
  have hmem1 : x ∈ t.take q := by
    have h1 : (t.take q)[p]? = some x := by
      rw [List.getElem?_take]
      simp [hpq, hp]
    exact List.getElem?_mem h1
  have hmem2 : x ∈ t.drop q := by
    have h2 : (t.drop q)[0]? = some x := by
      rw [List.getElem?_drop]
      simpa using hq
    exact List.getElem?_mem h2
  have h1 : 1 ≤ (t.take q).countP (fun e => e == x) :=
    List.countP_pos.mpr ⟨x, hmem1, by simp⟩
  have h2 : 1 ≤ (t.drop q).countP (fun e => e == x) :=
    List.countP_pos.mpr ⟨x, hmem2, by simp⟩
  calc 2 ≤ (t.take q).countP (fun e => e == x)
        + (t.drop q).countP (fun e => e == x) := by omega
    _ = t.countP (fun e => e == x) := by
        rw [← List.countP_append, ← hsplit]

/-- C5: in every execution of `compress_overlapped`, between a submission on
slot `s` and the wait on that submission's handle, the host neither packs
(`write_uncompressed`) nor unpacks (`read_compressed`) slot `s`: host work in
that span touches only the other slot. -/
theorem compress_overlapped_slot_ownership (comp : List Nat → List Nat)
    (D : List Nat) :
    ∀ (p q s i : Nat),
      ((compress_overlapped comp D).2)[p]? = some (Event.submit s i) →
      ((compress_overlapped comp D).2)[q]? = some (Event.wait i) →
      p < q →
      ∀ r, p < r → r < q →
        ((compress_overlapped comp D).2)[r]? ≠ some (Event.pack s)
          ∧ ((compress_overlapped comp D).2)[r]? ≠ some (Event.unpack s) := by
  have htr : (compress_overlapped comp D).2
      = Event.pack 0 :: mkLoopTrace 0 0 false
          (nBricks (D.length - min D.length BRICK_SIZE)) := by
    rw [compress_overlapped_eq]
  intro p q s i hp hq hpq r hr1 hr2
  have hslot : slotOK none ((compress_overlapped comp D).2) := by
    rw [htr]
    simpa [slotOK] using
      mkLoopTrace_slotOK (nBricks (D.length - min D.length BRICK_SIZE)) 0 0 false
        (by omega)
  have hafter := slotOK_after_submit _ none hslot p s i hp
  have hcount : ((compress_overlapped comp D).2).countP
      (fun e => e == Event.wait i) ≤ 1 := by
    rw [htr, List.countP_cons, mkLoopTrace_wait_count]
    split_ifs <;> simp_all
  have hnoearly : ∀ r2, r2 < q - (p + 1) →
      (((compress_overlapped comp D).2).drop (p + 1))[r2]? ≠ some (Event.wait i) := by
    intro r2 hr2b hcontra
    rw [List.getElem?_drop] at hcontra
    have h2 := two_positions_countP ((compress_overlapped comp D).2)
      (Event.wait i) (p + 1 + r2) q hcontra hq (by omega)
    omega
  have hq2 : (((compress_overlapped comp D).2).drop (p + 1))[q - (p + 1)]?
      = some (Event.wait i) := by
    rw [List.getElem?_drop, show p + 1 + (q - (p + 1)) = q from by omega]
    exact hq
  have hmain := slotOK_span _ s i hafter (q - (p + 1)) hq2 hnoearly
    (r - (p + 1)) (by omega)
  rw [List.getElem?_drop, show p + 1 + (r - (p + 1)) = r from by omega] at hmain
  exact hmain

/-- C6: in every execution of `compress_overlapped`, accelerator operations
are strictly sequenced: between any two submissions the wait for the first
has returned (in particular, a later submission against a slot never starts
before the wait for that slot's previous submission), and at every point of
the trace at most one submission is outstanding. -/
theorem compress_overlapped_sequencing (comp : List Nat → List Nat)
    (D : List Nat) :
    (∀ (p q s i j : Nat),
        ((compress_overlapped comp D).2)[p]? = some (Event.submit s i) →
        ((compress_overlapped comp D).2)[q]? = some (Event.submit s j) →
        p < q →
        ∃ r, p < r ∧ r < q
          ∧ ((compress_overlapped comp D).2)[r]? = some (Event.wait i))
    ∧ ∀ k, (((compress_overlapped comp D).2).take k).countP isWait
          ≤ (((compress_overlapped comp D).2).take k).countP isSubmit
        ∧ (((compress_overlapped comp D).2).take k).countP isSubmit
          ≤ (((compress_overlapped comp D).2).take k).countP isWait + 1 := by
  have htr : (compress_overlapped comp D).2
      = Event.pack 0 :: mkLoopTrace 0 0 false
          (nBricks (D.length - min D.length BRICK_SIZE)) := by
    rw [compress_overlapped_eq]
  have hok : swOK none ((compress_overlapped comp D).2) := by
    rw [htr]
    simpa [swOK] using
      mkLoopTrace_swOK (nBricks (D.length - min D.length BRICK_SIZE)) 0 0 false
  constructor
  · intro p q s i j hp hq hpq
    exact swOK_wait_between _ none hok p q s i s j hp hq hpq
  · intro k
    have hc := swOK_counts _ none hok k
    simpa using hc

theorem pyNorm_of_nonneg (n : Nat) (i : Int) (h0 : 0 ≤ i) (h : i ≤ n) :
    pyNorm n i = i.toNat := by
  simp only [pyNorm]
  rw [if_neg (by omega)]
  omega

theorem pySliceGet_of_nonneg {α : Type} (xs : List α) (b : Int)
    (h0 : 0 ≤ b) (h : b ≤ xs.length) :
    pySliceGet xs 0 b = xs.take b.toNat := by
  simp only [pySliceGet]
  rw [pyNorm_of_nonneg _ _ h0 h, pyNorm_of_nonneg _ _ (by omega) (by omega)]
  simp

theorem read_kernelRun (comp : List Nat → List Nat) (inBuf sizes : List Nat)
    (blocks : Int) (h0 : 0 ≤ blocks) (h8 : blocks ≤ 8) :
    read_compressed [] (kernelRun comp inBuf sizes).1
        (kernelRun comp inBuf sizes).2 blocks
      = (List.range blocks.toNat).flatMap fun i =>
          le32 (comp (kernelBlockIn inBuf sizes i)).length
            ++ ((comp (kernelBlockIn inBuf sizes i)).take BLOCK_SIZE).take
                (comp (kernelBlockIn inBuf sizes i)).length := by
  rw [read_compressed]
  rw [show (kernelRun comp inBuf sizes).1
      = (List.range 8).map fun i =>
          (comp (kernelBlockIn inBuf sizes i)).take BLOCK_SIZE from by
    rw [kernelRun]
    simp [List.map_map]]
  rw [show (kernelRun comp inBuf sizes).2
      = (List.range 8).map fun i => (comp (kernelBlockIn inBuf sizes i)).length from by
    rw [kernelRun]
    simp [List.map_map]]
  rw [pySliceGet_of_nonneg _ _ h0 (by simp; omega),
    pySliceGet_of_nonneg _ _ h0 (by simp; omega)]
  rw [← List.map_take, ← List.map_take, List.take_range,
    show blocks.toNat ⊓ 8 = blocks.toNat from by omega, List.zip_map',
    List.flatMap_map]
  simp

theorem min_BLOCK_BRICK : min BLOCK_SIZE BRICK_SIZE = BLOCK_SIZE := by
  norm_num [BLOCK_SIZE, BRICK_SIZE]

theorem blocksOf_BLOCK_SIZE : blocksOf BLOCK_SIZE = 1 := by
  rw [blocksOf_eq_of_pos BLOCK_SIZE (by norm_num [BLOCK_SIZE])
    (by norm_num [BLOCK_SIZE, BRICK_SIZE])]
  norm_num [BLOCK_SIZE]

theorem sizesOf_BLOCK_SIZE_head : (sizesOf BLOCK_SIZE).getD 0 0 = 0 := by
  rw [sizesOf_getD BLOCK_SIZE 0 (by omega)]
  rw [if_neg (by norm_num [BLOCK_SIZE, BRICK_SIZE]), blocksOf_BLOCK_SIZE]
  norm_num

theorem brickStream_block_multiple (comp : List Nat → List Nat)
    (hc : comp [] = []) :
    brickStream comp (List.replicate BLOCK_SIZE 1) = [0, 0, 0, 0] := by
  rw [brickStream_eq]
  simp only [List.length_replicate]
  rw [min_BLOCK_BRICK, blocksOf_BLOCK_SIZE,
    read_kernelRun comp _ _ 1 (by omega) (by omega)]
  rw [show (1 : Int).toNat = 1 from rfl, show List.range 1 = [0] from rfl]
  simp only [List.flatMap_cons, List.flatMap_nil]
  rw [show kernelBlockIn (List.take BLOCK_SIZE (List.replicate BLOCK_SIZE 1))
      (sizesOf BLOCK_SIZE) 0 = [] from by
    rw [kernelBlockIn, sizesOf_BLOCK_SIZE_head]
    simp]
  rw [hc]
  simp [le32]

theorem bodyStream_block_multiple (comp : List Nat → List Nat)
    (hc : comp [] = []) :
    bodyStream comp (List.replicate BLOCK_SIZE 1) = [0, 0, 0, 0] := by
  rw [bodyStream]
  rw [if_neg (by
    simp only [List.length_replicate]
    have := BLOCK_SIZE_pos
    omega)]
  simp only [List.length_replicate]
  rw [min_BLOCK_BRICK, List.drop_replicate]
  simp only [Nat.sub_self, List.replicate_zero, bodyStream_nil,
    brickStream_block_multiple comp hc, List.append_nil]

/-- C2 (code bug): with a perfectly invertible accelerator (modelled by the
identity on blocks), compressing an input of length exactly `BLOCK_SIZE`
produces a stream that decompresses to the empty byte string, not to the
input: the round-trip property fails on this input. -/
theorem roundtrip_fails_on_block_multiple :
    decompressFrame id (compress_overlapped id (List.replicate BLOCK_SIZE 1)).1
      = some []
    ∧ List.replicate BLOCK_SIZE (1 : Nat) ≠ [] := by
  constructor
  · have hstr : (compress_overlapped id (List.replicate BLOCK_SIZE 1)).1
        = LZ4_HEADER ++ [0, 0, 0, 0] ++ [0, 0, 0, 0] := by
      rw [compress_overlapped_eq, bodyStream_block_multiple id rfl]
    rw [hstr, decompressFrame]
    rw [if_pos (by decide)]
    have hdrop7 : List.drop 7 (LZ4_HEADER ++ [0, 0, 0, 0] ++ [0, 0, 0, 0])
        = [0, 0, 0, 0, 0, 0, 0, 0] := by decide
    rw [hdrop7, decompressRecords]
    simp [le32dec]
  · rw [ne_eq, List.replicate_eq_nil_iff]
    have := BLOCK_SIZE_pos
    omega

/-- C3 (code bug): for a data window of length exactly `BLOCK_SIZE` (a
partial brick whose length is an exact positive multiple of `BLOCK_SIZE`),
`write_uncompressed` copies `BLOCK_SIZE` bytes and reports one valid block,
but records that block's length as `total_size % BLOCK_SIZE = 0` instead of
its actual byte count `min BLOCK_SIZE (total_size - 0 * BLOCK_SIZE)
= BLOCK_SIZE`. -/
theorem write_uncompressed_block_multiple_bug :
    (write_uncompressed (List.replicate BLOCK_SIZE 1)
        (List.replicate BRICK_SIZE 0) (List.replicate 8 0)).blocks = 1
    ∧ (write_uncompressed (List.replicate BLOCK_SIZE 1)
        (List.replicate BRICK_SIZE 0) (List.replicate 8 0)).total_size = BLOCK_SIZE
    ∧ (write_uncompressed (List.replicate BLOCK_SIZE 1)
        (List.replicate BRICK_SIZE 0) (List.replicate 8 0)).sizes.getD 0 0 = 0
    ∧ min BLOCK_SIZE
        ((write_uncompressed (List.replicate BLOCK_SIZE 1)
          (List.replicate BRICK_SIZE 0) (List.replicate 8 0)).total_size
            - 0 * BLOCK_SIZE) = BLOCK_SIZE
    ∧ (0 : Nat) ≠ BLOCK_SIZE := by
  have h1 : (write_uncompressed (List.replicate BLOCK_SIZE 1)
      (List.replicate BRICK_SIZE 0) (List.replicate 8 0)).total_size
        = BLOCK_SIZE := by
    rw [wu_total_size]
    simp [min_BLOCK_BRICK]
  refine ⟨?_, h1, ?_, ?_, by norm_num [BLOCK_SIZE]⟩
  · rw [wu_blocks]
    simp only [List.length_replicate]
    rw [min_BLOCK_BRICK, blocksOf_BLOCK_SIZE]
  · rw [wu_sizes _ _ _ (by simp)]
    simp only [List.length_replicate]
    rw [min_BLOCK_BRICK, sizesOf_BLOCK_SIZE_head]
  · rw [h1]
    simp

/-- C4 counterexample: on zero-length input, `compress_overlapped` performs
one kernel submission (of an empty brick), so the claim that no accelerator
submission happens is false for the pipelined implementation. -/
theorem compress_overlapped_empty_submits :
    ((compress_overlapped (fun _ => []) []).2).countP isSubmit = 1
    ∧ ¬ ((compress_overlapped (fun _ => []) []).2).countP isSubmit = 0 := by
  have h : ((compress_overlapped (fun _ => []) []).2).countP isSubmit = 1 := by
    rw [compress_overlapped_eq]
    simp only [List.length_nil, Nat.zero_sub, Nat.min_zero, nBricks_zero]
    rw [List.countP_cons, mkLoopTrace_submit_count]
    simp [isSubmit]
  exact ⟨h, by omega⟩

/-- C4 (amended): on zero-length input both implementations emit exactly the
fixed header followed by the 4-byte zero terminator; `compress_hw` performs
no kernel invocation, while `compress_overlapped` performs exactly one
submission (of an empty brick), whose result contributes no bytes. -/
theorem compress_empty_input (comp : List Nat → List Nat) :
    compress_hw comp [] = (LZ4_HEADER ++ [0, 0, 0, 0], 0)
    ∧ (compress_overlapped comp []).1 = LZ4_HEADER ++ [0, 0, 0, 0]
    ∧ ((compress_overlapped comp []).2).countP isSubmit = 1 := by
  refine ⟨?_, ?_, ?_⟩
  · rw [compress_hw_eq]
    simp [bodyStream_nil, nBricks_zero]
  · rw [compress_overlapped_eq]
    simp [bodyStream_nil]
  · rw [compress_overlapped_eq]
    simp only [List.length_nil, Nat.zero_sub, Nat.min_zero, nBricks_zero]
    rw [List.countP_cons, mkLoopTrace_submit_count]
    simp [isSubmit]

theorem sizesOf_one : sizesOf 1 = 1 :: List.replicate 7 0 := by decide

theorem sizesOf_BRICK : sizesOf BRICK_SIZE = List.replicate 8 BLOCK_SIZE := by decide

theorem nBricks_one : nBricks 1 = 1 := by
  rw [nBricks, if_neg (by omega)]
  have hB := BRICK_SIZE_pos
  rw [show 1 - min 1 BRICK_SIZE = 0 from by omega, nBricks_zero]

/-- C7: for an input of length exactly `8 * BLOCK_SIZE + 1` the pipelined
compressor submits exactly two bricks, and packing the second brick (the
window after the first `BRICK_SIZE` bytes) reports one valid block, records
its length as 1 and zeroes the remaining 7 block-size entries. -/
theorem compress_two_bricks (comp : List Nat → List Nat) (D b s : List Nat)
    (hD : D.length = 8 * BLOCK_SIZE + 1) (hs : s.length = 8) :
    ((compress_overlapped comp D).2).countP isSubmit = 2
    ∧ (write_uncompressed (D.drop BRICK_SIZE) b s).blocks = 1
    ∧ (write_uncompressed (D.drop BRICK_SIZE) b s).sizes
        = 1 :: List.replicate 7 0 := by
  have hbr : BRICK_SIZE = 8 * BLOCK_SIZE := rfl
  have hB := BLOCK_SIZE_pos
  have hlen2 : (D.drop BRICK_SIZE).length = 1 := by
    rw [List.length_drop, hD, hbr]
    omega
  have hmin2 : min (D.drop BRICK_SIZE).length BRICK_SIZE = 1 := by
    rw [hlen2, hbr]
    omega
  refine ⟨?_, ?_, ?_⟩
  · rw [compress_overlapped_eq]
    rw [show D.length - min D.length BRICK_SIZE = 1 from by rw [hD, hbr]; omega]
    rw [List.countP_cons, nBricks_one, mkLoopTrace_submit_count]
    simp [isSubmit]
  · rw [wu_blocks, hmin2, blocksOf_eq_of_pos 1 (by omega) (by rw [hbr]; omega)]
    norm_num
  · rw [wu_sizes _ _ _ hs, hmin2, sizesOf_one]

/-- C8: for an input of length exactly `8 * BLOCK_SIZE` (one full brick) the
pipelined compressor performs exactly one submission and its trace is one
pack, the submission, one wait and one unpack; `write_uncompressed` reports
8 blocks with every block-size entry equal to `BLOCK_SIZE`. -/
theorem compress_one_full_brick (comp : List Nat → List Nat) (D b s : List Nat)
    (hD : D.length = 8 * BLOCK_SIZE) (hs : s.length = 8) :
    ((compress_overlapped comp D).2).countP isSubmit = 1
    ∧ (compress_overlapped comp D).2
        = [Event.pack 0, Event.submit 0 0, Event.wait 0, Event.unpack 0]
    ∧ (write_uncompressed D b s).blocks = 8
    ∧ (write_uncompressed D b s).sizes = List.replicate 8 BLOCK_SIZE := by
  have hbr : BRICK_SIZE = 8 * BLOCK_SIZE := rfl
  have hmin : min D.length BRICK_SIZE = BRICK_SIZE := by
    rw [hD, hbr]
    omega
  have htr : (compress_overlapped comp D).2
      = [Event.pack 0, Event.submit 0 0, Event.wait 0, Event.unpack 0] := by
    rw [compress_overlapped_eq]
    rw [show D.length - min D.length BRICK_SIZE = 0 from by rw [hmin, hD, hbr]; omega]
    rw [nBricks_zero, mkLoopTrace_last]
    simp
  refine ⟨?_, htr, ?_, ?_⟩
  · rw [htr]
    decide
  · rw [wu_blocks, hmin]
    simp [blocksOf]
  · rw [wu_sizes _ _ _ hs, hmin, sizesOf_BRICK]

/-- C10: for a zero-length data window `write_uncompressed` returns total
size 0 and block count 0, leaves the buffer unchanged and zeroes all 8
entries of the size array — even though the computed block count
`((0 - 1) // BLOCK_SIZE) + 1 = 0` makes the first intermediate slice
assignment `sizes[0:blocks-1]` use the negative index `-1` and hence write
`BLOCK_SIZE` into entries 0 to 6 before `sizes[blocks:8] = 0` overwrites
every entry. -/
theorem write_uncompressed_empty_window (b s : List Nat) (hs : s.length = 8) :
    (write_uncompressed [] b s).total_size = 0
    ∧ (write_uncompressed [] b s).blocks = 0
    ∧ (write_uncompressed [] b s).buffers = b
    ∧ (write_uncompressed [] b s).sizes = List.replicate 8 0
    ∧ blocksOf 0 = 0
    ∧ pySliceSet s 0 (blocksOf 0 - 1) BLOCK_SIZE
        = List.replicate 7 BLOCK_SIZE ++ [s.getD 7 0] := by
  refine ⟨?_, ?_, ?_, ?_, blocksOf_zero, ?_⟩
  · rw [wu_total_size]
    simp
  · rw [wu_blocks]
    simp [blocksOf_zero]
  · rw [wu_buffers]
    simp
  · rw [wu_sizes _ _ _ hs]
    simp only [List.length_nil]
    rw [show min 0 BRICK_SIZE = 0 from by omega]
    decide
  · apply List.ext_getElem?
    intro i
    rw [pySliceSet_getElem?, hs, blocksOf_zero]
    rw [show pyNorm 8 0 = 0 from by decide, show pyNorm 8 (0 - 1) = 7 from by decide]
    rw [List.getElem?_append]
    rcases Nat.lt_or_ge i 7 with hi | hi
    · rw [if_pos (show i < (List.replicate 7 BLOCK_SIZE).length from by
          simpa using hi),
        if_pos (show i < 8 from by omega),
        if_pos (show 0 ≤ i ∧ i < 7 from ⟨by omega, hi⟩)]
      rw [List.getElem?_replicate, if_pos hi]
    · rcases Nat.lt_or_ge i 8 with hi8 | hi8
      · have hi7 : i = 7 := by omega
        subst hi7
        rw [if_neg (show ¬(7 < (List.replicate 7 BLOCK_SIZE).length) from by simp),
          if_pos (show 7 < 8 from by omega),
          if_neg (show ¬(0 ≤ (7 : Nat) ∧ (7 : Nat) < 7) from by omega)]
        rw [List.getD_eq_getElem?_getD, List.getElem?_eq_getElem (show 7 < s.length from by omega)]
        simp
      · rw [if_neg (show ¬(i < (List.replicate 7 BLOCK_SIZE).length) from by
            simp
            omega),
          if_neg (show ¬(i < 8) from by omega), List.length_replicate,
          List.getElem?_eq_none (show ([s.getD 7 0] : List Nat).length ≤ i - 7 from by
            simp
            omega)]

theorem brickPayloads_eq (comp : List Nat → List Nat) (w : List Nat) :
    brickPayloads comp w
      = (List.range (pyNorm 8 (blocksOf (min w.length BRICK_SIZE)))).map
          fun i => comp (kernelBlockIn (w.take (min w.length BRICK_SIZE))
            (sizesOf (min w.length BRICK_SIZE)) i) := by
  rw [brickPayloads, wu_buffers, wu_sizes _ _ _ (by simp), wu_blocks,
    List.drop_nil, List.append_nil]

theorem brickStream_payloads (comp : List Nat → List Nat) (w : List Nat)
    (hc : ∀ bl, (comp bl).length ≤ BLOCK_SIZE) :
    brickStream comp w
      = (brickPayloads comp w).flatMap fun p => le32 p.length ++ p := by
  rw [brickStream_eq, brickPayloads_eq, List.flatMap_map]
  rw [read_kernelRun comp _ _ _ (blocksOf_nonneg _)
    (blocksOf_le_eight _ (Nat.min_le_right _ _))]
  rw [pyNorm_of_nonneg _ _ (blocksOf_nonneg _)
    (by have := blocksOf_le_eight (min w.length BRICK_SIZE) (Nat.min_le_right _ _); omega)]
  apply List.flatMap_congr
  intro i hi
  have hlen := hc (kernelBlockIn (w.take (min w.length BRICK_SIZE))
    (sizesOf (min w.length BRICK_SIZE)) i)
  rw [List.take_take, show min (comp (kernelBlockIn
      (w.take (min w.length BRICK_SIZE)) (sizesOf (min w.length BRICK_SIZE)) i)).length
      BLOCK_SIZE
      = (comp (kernelBlockIn (w.take (min w.length BRICK_SIZE))
          (sizesOf (min w.length BRICK_SIZE)) i)).length from by omega,
    List.take_length]

theorem streamPayloads_nil (comp : List Nat → List Nat) :
    streamPayloads comp [] = [] := by
  rw [streamPayloads]
  simp

theorem bodyStream_payloads (comp : List Nat → List Nat)
    (hc : ∀ bl, (comp bl).length ≤ BLOCK_SIZE) :
    ∀ (n : Nat) (data : List Nat), data.length = n →
      bodyStream comp data
        = (streamPayloads comp data).flatMap fun p => le32 p.length ++ p := by
  intro n
  induction n using Nat.strong_induction_on with
  | _ n ih =>
    intro data hn
    by_cases hd : data.length = 0
    · rw [bodyStream, if_pos hd, streamPayloads, if_pos hd]
      simp
    · rw [bodyStream, if_neg hd, streamPayloads, if_neg hd,
        List.flatMap_append, brickStream_payloads comp data hc]
      have hB := BRICK_SIZE_pos
      rw [ih (data.drop (min data.length BRICK_SIZE)).length
        (by simp only [List.length_drop]; omega) _ rfl]

theorem streamPayloads_length_le (comp : List Nat → List Nat)
    (hc : ∀ bl, (comp bl).length ≤ BLOCK_SIZE) :
    ∀ (n : Nat) (data : List Nat), data.length = n →
      ∀ p ∈ streamPayloads comp data, p.length ≤ BLOCK_SIZE := by
  intro n
  induction n using Nat.strong_induction_on with
  | _ n ih =>
    intro data hn p hp
    by_cases hd : data.length = 0
    · rw [streamPayloads, if_pos hd] at hp
      simp at hp
    · rw [streamPayloads, if_neg hd] at hp
      rcases List.mem_append.mp hp with h1 | h2
      · rw [brickPayloads_eq] at h1
        obtain ⟨i, _, hpi⟩ := List.mem_map.mp h1
        rw [← hpi]
        exact hc _
      · have hB := BRICK_SIZE_pos
        exact ih (data.drop (min data.length BRICK_SIZE)).length
          (by simp only [List.length_drop]; omega) _ rfl p h2

/-- C9: for every input, the compressed stream of both implementations is
the fixed 7-byte header, then, for each brick in input order and each valid
block of that brick, a 4-byte little-endian prefix holding the compressed
payload's length followed by exactly that payload, and finally the 4-byte
zero terminator record; every payload fits in a block, so the prefix value
is the payload's byte count. -/
theorem compress_stream_format (comp : List Nat → List Nat) (D : List Nat)
    (hc : ∀ bl, (comp bl).length ≤ BLOCK_SIZE) :
    (compress_hw comp D).1
      = LZ4_HEADER
        ++ (streamPayloads comp D).flatMap (fun p => le32 p.length ++ p)
        ++ [0, 0, 0, 0]
    ∧ (compress_overlapped comp D).1
      = LZ4_HEADER
        ++ (streamPayloads comp D).flatMap (fun p => le32 p.length ++ p)
        ++ [0, 0, 0, 0]
    ∧ ∀ p ∈ streamPayloads comp D, p.length ≤ BLOCK_SIZE := by
  refine ⟨?_, ?_, streamPayloads_length_le comp hc D.length D rfl⟩
  · rw [compress_hw_eq]
    rw [bodyStream_payloads comp hc D.length D rfl]
  · rw [compress_overlapped_eq]
    rw [bodyStream_payloads comp hc D.length D rfl]

theorem nBricks_8B1 : nBricks (8 * BLOCK_SIZE + 1) = 2 := by
  rw [nBricks, if_neg (by positivity)]
  rw [show 8 * BLOCK_SIZE + 1 - min (8 * BLOCK_SIZE + 1) BRICK_SIZE = 1 from by
    rw [show BRICK_SIZE = 8 * BLOCK_SIZE from rfl]
    omega]
  rw [nBricks_one]

theorem trace_two_bricks (comp : List Nat → List Nat) (D : List Nat)
    (hD : D.length = 8 * BLOCK_SIZE + 1) :
    (compress_overlapped comp D).2
      = [Event.pack 0, Event.submit 0 0, Event.pack 1, Event.wait 0,
         Event.submit 1 1, Event.unpack 0, Event.wait 1, Event.unpack 1] := by
  rw [compress_overlapped_eq]
  rw [show D.length - min D.length BRICK_SIZE = 1 from by
    rw [hD, show BRICK_SIZE = 8 * BLOCK_SIZE from rfl]
    omega]
  rw [nBricks_one, mkLoopTrace_cons 0 0 false 1 (by omega), mkLoopTrace_last]
  simp [xor_zero_one, xor_one_one]

theorem trace_three_bricks (comp : List Nat → List Nat) (D : List Nat)
    (hD : D.length = 2 * (8 * BLOCK_SIZE) + 1) :
    (compress_overlapped comp D).2
      = [Event.pack 0, Event.submit 0 0, Event.pack 1, Event.wait 0,
         Event.submit 1 1, Event.unpack 0, Event.pack 0, Event.wait 1,
         Event.submit 0 2, Event.unpack 1, Event.wait 2, Event.unpack 0] := by
  rw [compress_overlapped_eq]
  rw [show D.length - min D.length BRICK_SIZE = 8 * BLOCK_SIZE + 1 from by
    rw [hD, show BRICK_SIZE = 8 * BLOCK_SIZE from rfl]
    omega]
  rw [nBricks_8B1, mkLoopTrace_cons 0 0 false 2 (by omega)]
  rw [show (2 : Nat) - 1 = 1 from rfl, show (0 : Nat) ^^^ 1 = 1 from rfl]
  rw [mkLoopTrace_cons 1 1 true 1 (by omega)]
  rw [show (1 : Nat) - 1 = 0 from rfl, show (1 : Nat) ^^^ 1 = 0 from rfl]
  rw [mkLoopTrace_last]
  simp

theorem compress_overlapped_slot_ownership_witness :
    ((compress_overlapped id (List.replicate (8 * BLOCK_SIZE + 1) 0)).2)[1]?
        = some (Event.submit 0 0)
    ∧ ((compress_overlapped id (List.replicate (8 * BLOCK_SIZE + 1) 0)).2)[3]?
        = some (Event.wait 0)
    ∧ (1 : Nat) < 3 ∧ (1 : Nat) < 2 ∧ (2 : Nat) < 3
    ∧ (((compress_overlapped id (List.replicate (8 * BLOCK_SIZE + 1) 0)).2)[2]?
          ≠ some (Event.pack 0)
        ∧ ((compress_overlapped id (List.replicate (8 * BLOCK_SIZE + 1) 0)).2)[2]?
          ≠ some (Event.unpack 0)) := by
  have htr := trace_two_bricks id (List.replicate (8 * BLOCK_SIZE + 1) 0) (by simp)
  have h1 : ((compress_overlapped id (List.replicate (8 * BLOCK_SIZE + 1) 0)).2)[1]?
      = some (Event.submit 0 0) := by rw [htr]; rfl
  have h3 : ((compress_overlapped id (List.replicate (8 * BLOCK_SIZE + 1) 0)).2)[3]?
      = some (Event.wait 0) := by rw [htr]; rfl
  exact ⟨h1, h3, by omega, by omega, by omega,
    compress_overlapped_slot_ownership id _ 1 3 0 0 h1 h3 (by omega) 2
      (by omega) (by omega)⟩

theorem compress_overlapped_sequencing_witness :
    ((compress_overlapped id (List.replicate (2 * (8 * BLOCK_SIZE) + 1) 0)).2)[1]?
        = some (Event.submit 0 0)
    ∧ ((compress_overlapped id (List.replicate (2 * (8 * BLOCK_SIZE) + 1) 0)).2)[8]?
        = some (Event.submit 0 2)
    ∧ (1 : Nat) < 8
    ∧ ∃ r, 1 < r ∧ r < 8
        ∧ ((compress_overlapped id (List.replicate (2 * (8 * BLOCK_SIZE) + 1) 0)).2)[r]?
          = some (Event.wait 0) := by
  have htr := trace_three_bricks id (List.replicate (2 * (8 * BLOCK_SIZE) + 1) 0)
    (by simp)
  have h1 : ((compress_overlapped id (List.replicate (2 * (8 * BLOCK_SIZE) + 1) 0)).2)[1]?
      = some (Event.submit 0 0) := by rw [htr]; rfl
  have h8 : ((compress_overlapped id (List.replicate (2 * (8 * BLOCK_SIZE) + 1) 0)).2)[8]?
      = some (Event.submit 0 2) := by rw [htr]; rfl
  exact ⟨h1, h8, by omega,
    (compress_overlapped_sequencing id _).1 1 8 0 0 2 h1 h8 (by omega)⟩

theorem compress_two_bricks_witness :
    (List.replicate (8 * BLOCK_SIZE + 1) (0 : Nat)).length = 8 * BLOCK_SIZE + 1
    ∧ (List.replicate 8 (0 : Nat)).length = 8
    ∧ (((compress_overlapped id (List.replicate (8 * BLOCK_SIZE + 1) 0)).2).countP
          isSubmit = 2
      ∧ (write_uncompressed ((List.replicate (8 * BLOCK_SIZE + 1) 0).drop BRICK_SIZE)
          [] (List.replicate 8 0)).blocks = 1
      ∧ (write_uncompressed ((List.replicate (8 * BLOCK_SIZE + 1) 0).drop BRICK_SIZE)
          [] (List.replicate 8 0)).sizes = 1 :: List.replicate 7 0) :=
  ⟨by simp, by simp,
    compress_two_bricks id (List.replicate (8 * BLOCK_SIZE + 1) 0) []
      (List.replicate 8 0) (by simp) (by simp)⟩

theorem compress_one_full_brick_witness :
    (List.replicate (8 * BLOCK_SIZE) (0 : Nat)).length = 8 * BLOCK_SIZE
    ∧ (List.replicate 8 (0 : Nat)).length = 8
    ∧ (((compress_overlapped id (List.replicate (8 * BLOCK_SIZE) 0)).2).countP
          isSubmit = 1
      ∧ (compress_overlapped id (List.replicate (8 * BLOCK_SIZE) 0)).2
          = [Event.pack 0, Event.submit 0 0, Event.wait 0, Event.unpack 0]
      ∧ (write_uncompressed (List.replicate (8 * BLOCK_SIZE) 0) []
          (List.replicate 8 0)).blocks = 8
      ∧ (write_uncompressed (List.replicate (8 * BLOCK_SIZE) 0) []
          (List.replicate 8 0)).sizes = List.replicate 8 BLOCK_SIZE) :=
  ⟨by simp, by simp,
    compress_one_full_brick id (List.replicate (8 * BLOCK_SIZE) 0) []
      (List.replicate 8 0) (by simp) (by simp)⟩

theorem compress_stream_format_witness :
    (∀ bl : List Nat, ((fun _ : List Nat => ([] : List Nat)) bl).length ≤ BLOCK_SIZE)
    ∧ ((compress_hw (fun _ : List Nat => ([] : List Nat)) [5]).1
        = LZ4_HEADER
          ++ (streamPayloads (fun _ : List Nat => ([] : List Nat)) [5]).flatMap
              (fun p => le32 p.length ++ p)
          ++ [0, 0, 0, 0]
      ∧ (compress_overlapped (fun _ : List Nat => ([] : List Nat)) [5]).1
        = LZ4_HEADER
          ++ (streamPayloads (fun _ : List Nat => ([] : List Nat)) [5]).flatMap
              (fun p => le32 p.length ++ p)
          ++ [0, 0, 0, 0]
      ∧ ∀ p ∈ streamPayloads (fun _ : List Nat => ([] : List Nat)) [5],
          p.length ≤ BLOCK_SIZE) :=
  ⟨fun bl => by simp, compress_stream_format (fun _ => []) [5] (fun bl => by simp)⟩

theorem write_uncompressed_empty_window_witness :
    (List.replicate 8 (5 : Nat)).length = 8
    ∧ ((write_uncompressed [] [3] (List.replicate 8 5)).total_size = 0
      ∧ (write_uncompressed [] [3] (List.replicate 8 5)).blocks = 0
      ∧ (write_uncompressed [] [3] (List.replicate 8 5)).buffers = [3]
      ∧ (write_uncompressed [] [3] (List.replicate 8 5)).sizes = List.replicate 8 0
      ∧ blocksOf 0 = 0
      ∧ pySliceSet (List.replicate 8 5) 0 (blocksOf 0 - 1) BLOCK_SIZE
          = List.replicate 7 BLOCK_SIZE ++ [(List.replicate 8 5).getD 7 0]) :=
  ⟨by simp, write_uncompressed_empty_window [3] (List.replicate 8 5) (by simp)⟩
